import Mathlib

/-!
Verification of the openclaw-secure-setup core against its specification.

JavaScript strings are modelled as Lean `String` (lists of characters);
machine integers from process exit codes as `Int`; JSON values as the
inductive `JVal`; the Google Cloud Storage bucket backing the brain as an
association list from object path to stored JSON object.  Source files:
`src/util/proc.js` (unnamed/part_005), `src/brain/brain.js`,
`src/agent/sandbox.js` and `src/agent/plan.js` (unnamed/part_003),
`src/util/rateLimit.js`.
-/

namespace OpenClaw

/-- JS `s || t` on strings: the empty string is falsy. -/
def jsOr (a b : String) : String := if a = "" then b else a

/-- `clampString(s, n)` from sandbox.js / plan.js / brain.js:
`String(s || '').slice(0, n)` — the first `n` characters. -/
def clampString (s : String) (n : Nat) : String := ⟨s.data.take n⟩

/-- `safeLogChunk(s, max = 3500)` from `src/util/proc.js`: text unchanged when
it fits, otherwise the first `max` characters followed by a truncation marker. -/
def safeLogChunk (s : String) (max : Nat := 3500) : String :=
  if s.data.length > max then ⟨s.data.take max⟩ ++ "\n…(truncated)…\n" else s

/-- JS `String.prototype.toLowerCase`, restricted to the ASCII mapping
(`Char.toLower`); every string the validator's blocklist mentions is ASCII. -/
def jsToLowerCase (s : String) : String := ⟨s.data.map Char.toLower⟩

/-- JS `array.join(' ')`. -/
def joinSpace (l : List String) : String := String.intercalate " " l

/-- JS `hay.includes(needle)` on the underlying character lists. -/
def listContainsSub (hay needle : List Char) : Bool :=
  match hay with
  | [] => needle.isEmpty
  | _ :: t => needle.isPrefixOf hay || listContainsSub t needle

/-- JS `hay.includes(needle)`. -/
def strContains (hay needle : String) : Bool :=
  listContainsSub hay.data needle.data

/-- JS whitespace for `trim` (the ASCII part of `\s`). -/
def jsWs (c : Char) : Bool := c = ' ' || c = '\t' || c = '\n' || c = '\r'

/-- JS `String.prototype.trim` on a character list. -/
def jsTrimList (l : List Char) : List Char :=
  ((l.dropWhile jsWs).reverse.dropWhile jsWs).reverse

/-- JS `String.prototype.trim`. -/
def jsTrim (s : String) : String := ⟨jsTrimList s.data⟩

/-! ## CommandValidator (`commandAllowed`, src/util/proc.js) -/

/-- The fixed allowed-program vocabulary (`const allow = new Set([...])`). -/
def allowPrograms : List String := ["git", "npm", "node"]

/-- The fixed blocked-substring list from `commandAllowed`. -/
def blockedSubstrings : List String :=
  ["bash -c", "sh -c", "curl", "wget", "nc ", "netcat", "ssh ", "scp ", "sftp"]

/-- `commandAllowed(cmd, args)` from `src/util/proc.js`. -/
def commandAllowed (cmd : String) (args : List String) : Bool :=
  if ¬ allowPrograms.contains cmd then false
  else
    let joined := jsToLowerCase (joinSpace (cmd :: args))
    if blockedSubstrings.any (fun b => strContains joined b) then false
    else true

/-! ## JSON values and JS objects

`JVal` models a JavaScript JSON value.  Numbers keep their source lexeme
(`raw`), which is all the repository ever inspects; this avoids importing
floating-point semantics.  A JS object is an association list in which a
later binding shadows an earlier one, so that JS spread `{...a, ...b}` is
list append and property read takes the last match. -/

inductive JVal where
  | jnull
  | jbool (b : Bool)
  | jnum (raw : String)
  | jstr (s : String)
  | jarr (elems : List JVal)
  | jobj (fields : List (String × JVal))

/-- A JS object: later bindings shadow earlier ones. -/
abbrev Obj := List (String × JVal)

/-- Property read `o[k]`: the last binding of `k` wins (JS spread/assignment
semantics); `none` models an absent property (`undefined`). -/
def objGet (o : Obj) (k : String) : Option JVal :=
  match o with
  | [] => none
  | (k', v) :: t =>
    match objGet t k with
    | some v' => some v'
    | none => if k' = k then some v else none

/-! ## StateStore ("brain", src/brain/brain.js)

The GCS bucket is modelled as an association list from object path to the
stored JSON object, with the same last-binding-wins read as `Obj` so that
`gcsWriteJson` is list append.  The brain is modelled in its enabled
configuration (`storage` and `bucket` present); when disabled every
operation is a no-op in the source and no claim concerns that mode.
`nowIso()` is modelled as an explicit `now` argument. -/

/-- The modelled GCS bucket: object path ↦ stored JSON object. -/
abbrev Store := List (String × Obj)

/-- `gcsReadJson`: latest object at a path, `none` when absent. -/
def storeGet (s : Store) (path : String) : Option Obj :=
  match s with
  | [] => none
  | (p, o) :: t =>
    match storeGet t path with
    | some o' => some o'
    | none => if p = path then some o else none

/-- `gcsWriteJson`: overwrite the object at a path. -/
def storeSet (s : Store) (path : String) (o : Obj) : Store := s ++ [(path, o)]

/-- The safe alphabet `[a-zA-Z0-9._:@-]` of `brainObjectPath`. -/
def safeChar (c : Char) : Bool :=
  ('a' ≤ c && c ≤ 'z') || ('A' ≤ c && c ≤ 'Z') || ('0' ≤ c && c ≤ '9') ||
    c = '.' || c = '_' || c = ':' || c = '@' || c = '-'

/-- `String(key).replace(/[^a-zA-Z0-9._:@-]/g, '_')` from `brainObjectPath`. -/
def sanitizedKey (key : String) : String :=
  ⟨key.data.map (fun c => if safeChar c then c else '_')⟩

/-- `brainObjectPath(prefix, kind, key)` from src/brain/brain.js. -/
def brainObjectPath (pfx kind key : String) : String :=
  pfx ++ "/" ++ kind ++ "/" ++ sanitizedKey key ++ ".json"

/-- `repoKey(owner, repo)` from src/brain/brain.js. -/
def repoKey (owner repo : String) : String := owner ++ "/" ++ repo

/-- The merged object a brain save writes:
`{ ...existing, ...patch, updatedAt: nowIso(), version: 1 }`. -/
def saveMergeObj (existing patch : Obj) (now : String) : Obj :=
  existing ++ patch ++ [("updatedAt", .jstr now), ("version", .jnum "1")]

/-- `saveThread(threadKey, patch)` from src/brain/brain.js (enabled brain):
read the current object (empty when absent), shallow-merge the patch over it,
stamp `updatedAt`/`version`, write back. -/
def saveThread (store : Store) (pfx threadKey : String) (patch : Obj)
    (now : String) : Store :=
  let objPath := brainObjectPath pfx "threads" threadKey
  let existing := (storeGet store objPath).getD []
  storeSet store objPath (saveMergeObj existing patch now)

/-- `loadThread(threadKey)` from src/brain/brain.js (enabled brain). -/
def loadThread (store : Store) (pfx threadKey : String) : Option Obj :=
  storeGet store (brainObjectPath pfx "threads" threadKey)

/-- `saveRepo(owner, repo, patch)` from src/brain/brain.js (enabled brain). -/
def saveRepo (store : Store) (pfx owner repo : String) (patch : Obj)
    (now : String) : Store :=
  let objPath := brainObjectPath pfx "repos" (repoKey owner repo)
  let existing := (storeGet store objPath).getD []
  storeSet store objPath (saveMergeObj existing patch now)

/-- `loadRepo(owner, repo)` from src/brain/brain.js (enabled brain). -/
def loadRepo (store : Store) (pfx owner repo : String) : Option Obj :=
  storeGet store (brainObjectPath pfx "repos" (repoKey owner repo))

/-- `recordThreadError(threadKey, patch)` from src/brain/brain.js:
`saveThread(threadKey, { lastErrorAt: nowIso(), ...patch })`. -/
def recordThreadError (store : Store) (pfx threadKey : String) (patch : Obj)
    (now : String) : Store :=
  saveThread store pfx threadKey (("lastErrorAt", .jstr now) :: patch) now

/-! ## JSON.parse

A fuel-indexed recursive-descent parser modelling `JSON.parse` on the JSON
grammar: values are `null`, booleans, numbers (kept as their lexeme), strings
(with the standard escapes; `\uXXXX` is decoded without surrogate pairing,
which no input of this development exercises), arrays and objects.
`safeJsonParse` returning `null` on exception is `Option.none`. -/

/-- Skip JSON insignificant whitespace. -/
def skipWs : List Char → List Char
  | [] => []
  | c :: t => if jsWs c then skipWs t else c :: t

/-- Single-character JSON escapes. -/
def escChar (e : Char) : Option Char :=
  if e = '"' then some '"'
  else if e = '\\' then some '\\'
  else if e = '/' then some '/'
  else if e = 'b' then some (Char.ofNat 8)
  else if e = 'f' then some (Char.ofNat 12)
  else if e = 'n' then some '\n'
  else if e = 'r' then some (Char.ofNat 13)
  else if e = 't' then some '\t'
  else none

/-- Hex digit value (code points: 0-9 are 48-57, A-F are 65-70, a-f are 97-102). -/
def hexVal (c : Char) : Option Nat :=
  let n := c.toNat
  if 48 ≤ n ∧ n ≤ 57 then some (n - 48)
  else if 97 ≤ n ∧ n ≤ 102 then some (n - 87)
  else if 65 ≤ n ∧ n ≤ 70 then some (n - 55)
  else none

/-- Parse the body of a JSON string after its opening quote: the decoded
characters and the remainder after the closing quote.  Unescaped control
characters are rejected, as `JSON.parse` rejects them. -/
def parseStringBody : List Char → Option (List Char × List Char)
  | [] => none
  | c :: rest =>
    if c = '"' then some ([], rest)
    else if c = '\\' then
      match rest with
      | [] => none
      | e :: rest2 =>
        if e = 'u' then
          match rest2 with
          | h1 :: h2 :: h3 :: h4 :: rest3 =>
            match hexVal h1, hexVal h2, hexVal h3, hexVal h4 with
            | some x1, some x2, some x3, some x4 =>
              (parseStringBody rest3).map
                (fun p => (Char.ofNat (((x1 * 16 + x2) * 16 + x3) * 16 + x4) :: p.1, p.2))
            | _, _, _, _ => none
          | _ => none
        else
          match escChar e with
          | some d => (parseStringBody rest2).map (fun p => (d :: p.1, p.2))
          | none => none
    else if c.toNat < 32 then none
    else (parseStringBody rest).map (fun p => (c :: p.1, p.2))

/-- Integer part of a JSON number: `0` or a nonzero digit followed by digits. -/
def intPart : List Char → Option (List Char × List Char)
  | '0' :: rest => some (['0'], rest)
  | c :: rest =>
    if c.isDigit then some (c :: (rest.span Char.isDigit).1, (rest.span Char.isDigit).2)
    else none
  | [] => none

/-- Optional fraction and exponent of a JSON number (taken only when
well-formed; a malformed tail is left in place and rejected by the caller
requiring a delimiter, exactly as `JSON.parse` rejects such inputs). -/
def numTail (l : List Char) : List Char × List Char :=
  let (fp, l2) :=
    match l with
    | '.' :: t =>
      let s := t.span Char.isDigit
      if s.1 = [] then (([] : List Char), l) else ('.' :: s.1, s.2)
    | _ => ([], l)
  match l2 with
  | c :: t =>
    if c = 'e' || c = 'E' then
      let (sg, t2) : List Char × List Char :=
        match t with
        | s :: t' => if s = '+' || s = '-' then ([s], t') else ([], t)
        | [] => ([], t)
      let s := t2.span Char.isDigit
      if s.1 = [] then (fp, l2) else (fp ++ c :: (sg ++ s.1), s.2)
    else (fp, l2)
  | [] => (fp, l2)

/-- A JSON number lexeme. -/
def parseNumber (l : List Char) : Option (List Char × List Char) :=
  match l with
  | '-' :: t =>
    (intPart t).map (fun p => let q := numTail p.2; ('-' :: (p.1 ++ q.1), q.2))
  | _ =>
    (intPart l).map (fun p => let q := numTail p.2; (p.1 ++ q.1, q.2))

mutual

/-- Parse one JSON value (after skipping leading whitespace). -/
def parseVal : Nat → List Char → Option (JVal × List Char)
  | 0, _ => none
  | fuel + 1, cs =>
    match skipWs cs with
    | 'n' :: 'u' :: 'l' :: 'l' :: rest => some (.jnull, rest)
    | 't' :: 'r' :: 'u' :: 'e' :: rest => some (.jbool true, rest)
    | 'f' :: 'a' :: 'l' :: 's' :: 'e' :: rest => some (.jbool false, rest)
    | '"' :: rest => (parseStringBody rest).map (fun p => (.jstr ⟨p.1⟩, p.2))
    | '[' :: rest =>
      (match skipWs rest with
       | ']' :: rest2 => some (.jarr [], rest2)
       | rest1 => (parseElems fuel rest1).map (fun p => (.jarr p.1, p.2)))
    | '{' :: rest =>
      (match skipWs rest with
       | '}' :: rest2 => some (.jobj [], rest2)
       | rest1 => (parseMembers fuel rest1).map (fun p => (.jobj p.1, p.2)))
    | c :: rest =>
      if c = '-' || c.isDigit then
        (parseNumber (c :: rest)).map (fun p => (.jnum ⟨p.1⟩, p.2))
      else none
    | [] => none

/-- Parse the elements of a nonempty JSON array, up to and including `]`. -/
def parseElems : Nat → List Char → Option (List JVal × List Char)
  | 0, _ => none
  | fuel + 1, cs =>
    (parseVal fuel cs).bind fun p =>
      match skipWs p.2 with
      | ',' :: rest => (parseElems fuel rest).map (fun q => (p.1 :: q.1, q.2))
      | ']' :: rest => some ([p.1], rest)
      | _ => none

/-- Parse the members of a nonempty JSON object, up to and including `}`. -/
def parseMembers : Nat → List Char → Option (Obj × List Char)
  | 0, _ => none
  | fuel + 1, cs =>
    match skipWs cs with
    | '"' :: rest =>
      (parseStringBody rest).bind fun kp =>
        match skipWs kp.2 with
        | ':' :: rest2 =>
          (parseVal fuel rest2).bind fun vp =>
            match skipWs vp.2 with
            | ',' :: rest3 =>
              (parseMembers fuel rest3).map (fun q => ((⟨kp.1⟩, vp.1) :: q.1, q.2))
            | '}' :: rest3 => some ([(⟨kp.1⟩, vp.1)], rest3)
            | _ => none
        | _ => none
    | _ => none

end

/-- `JSON.parse` (two fuel units always suffice per consumed character);
`none` models a thrown `SyntaxError`, so this is also `safeJsonParse`. -/
def jsonParseText (s : String) : Option JVal :=
  match parseVal (2 * s.data.length + 2) s.data with
  | some (v, rest) => if skipWs rest = [] then some v else none
  | none => none

/-! ## Plan extraction and repair (src/agent/plan.js, unnamed/part_003) -/

/-- JS `l.indexOf(pat)` for a substring pattern. -/
def findSubIdx (l pat : List Char) : Option Nat :=
  match l with
  | [] => if pat.isEmpty then some 0 else none
  | _ :: t =>
    if pat.isPrefixOf l then some 0
    else (findSubIdx t pat).map (· + 1)

/-- `extractJsonFromText(text)` from src/agent/plan.js: trim, strip a leading
code fence (`/^\s*```(?:json)?\s*/i`; the input is already trimmed so the
leading `\s*` is vacuous), cut at a closing fence when present, then slice
between the first `{` and the last `}` (or from the first `{` when no `}`
follows it). -/
def extractJsonFromText (text : String) : String :=
  let s := jsTrimList text.data
  let c0 :=
    match s with
    | '`' :: '`' :: '`' :: rest =>
      if (rest.take 4).map Char.toLower = "json".data then (rest.drop 4).dropWhile jsWs
      else rest.dropWhile jsWs
    | _ => s
  let c1 := jsTrimList c0
  let content :=
    match findSubIdx c1 "```".data with
    | some i => jsTrimList (c1.take i)
    | none => c1
  let start? := content.findIdx? (· = '{')
  let endIdx? := (content.reverse.findIdx? (· = '}')).map (fun i => content.length - 1 - i)
  match start?, endIdx? with
  | some st, some en =>
    if st < en then ⟨jsTrimList ((content.drop st).take (en + 1 - st))⟩
    else ⟨jsTrimList (content.drop st)⟩
  | some st, none => ⟨jsTrimList (content.drop st)⟩
  | none, _ => ⟨content⟩

/-- JS numeric truthiness of a number lexeme: falsy exactly when the mantissa
digits are all zero. -/
def numIsZero (raw : String) : Bool :=
  ((raw.data.takeWhile (fun c => !(c = 'e' || c = 'E'))).filter Char.isDigit).all (· = '0')

/-- JS truthiness of a JSON value (`if (json)`). -/
def jsTruthy : JVal → Bool
  | .jnull => false
  | .jbool b => b
  | .jnum raw => !(numIsZero raw)
  | .jstr s => !(s.data.isEmpty)
  | .jarr _ => true
  | .jobj _ => true

/-- The acceptance check of the repair loop:
`json && json.prTitle != null && Array.isArray(json.steps)`. -/
def planShapeOk (j : JVal) : Bool :=
  jsTruthy j &&
  (match j with
   | .jobj o =>
     (match objGet o "prTitle" with
      | some .jnull => false
      | some _ => true
      | none => false) &&
     (match objGet o "steps" with
      | some (.jarr _) => true
      | _ => false)
   | _ => false)

/-- The repair suffixes of `parsePlanJson`. -/
def repairSuffixes : List String := ["\"\x7d", "\"\x7d", "\x7d", "]\"\x7d", "]\x7d"]

/-- The repair loop of `parsePlanJson`. -/
def tryRepairs (t : String) : List String → Option JVal
  | [] => none
  | suf :: rest =>
    match jsonParseText (t ++ suf) with
    | some j => if planShapeOk j then some j else tryRepairs t rest
    | none => tryRepairs t rest

/-- `parsePlanJson(extracted)` from src/agent/plan.js: a strict parse whose
truthy result is returned as-is; otherwise, for inputs of trimmed length at
least 20, the first repair suffix whose parse yields a value passing
`planShapeOk`. -/
def parsePlanJson (extracted : String) : Option JVal :=
  let fallback :=
    let t := jsTrim extracted
    if t.data.length < 20 then none else tryRepairs t repairSuffixes
  match jsonParseText extracted with
  | some j => if jsTruthy j then some j else fallback
  | none => fallback

/-- The final clamps of `claudeSandboxPlan`: `steps` truncated to 30 entries
(empty when not an array), `verify` defaulted, `verify.commands` truncated to
6 entries.  A non-object plan or a truthy non-object `verify` would raise a
`TypeError` at the property assignment in the strict-mode source; such values
are returned unchanged here and no claim exercises them. -/
def clampPlanJson (j : JVal) : JVal :=
  match j with
  | .jobj o =>
    let steps :=
      match objGet o "steps" with
      | some (.jarr xs) => xs.take 30
      | _ => []
    let o1 : Obj := o ++ [("steps", .jarr steps)]
    let verify0 :=
      match objGet o1 "verify" with
      | some v => if jsTruthy v then v else JVal.jobj [("commands", .jarr [])]
      | none => JVal.jobj [("commands", .jarr [])]
    let verify1 :=
      match verify0 with
      | .jobj vo =>
        let cmds :=
          match objGet vo "commands" with
          | some (.jarr cs) => cs.take 6
          | _ => []
        JVal.jobj (vo ++ [("commands", .jarr cmds)])
      | v => v
    JVal.jobj (o1 ++ [("verify", verify1)])
  | _ => j

/-- The error thrown when both parse passes fail, carrying
`raw.slice(0, 220)` of the FIRST response. -/
structure PlanParseErr where
  message : String

/-- The message of the plan-parse failure:
`` `Claude plan JSON parse failed. Got: ${raw.slice(0, 220)}` ``. -/
def planParseFailMessage (raw : String) : String :=
  "Claude plan JSON parse failed. Got: " ++ clampString raw 220

/-- `claudeSandboxPlan` from src/agent/plan.js, as a function of the two raw
model responses (`raw` from the first request, `raw2` from the single repair
request): parse `raw`; on failure record a first-pass error (with a 1800-char
snippet of `raw`) and parse `raw2`; on failure again record a repair-pass
error (with a 1800-char snippet of `raw2`) and throw an error whose message
embeds a 220-char snippet of `raw`.  Successful parses are clamped. -/
def claudeSandboxPlan (pfx threadKey jobId now : String) (raw raw2 : String)
    (store : Store) : Except PlanParseErr JVal × Store :=
  match parsePlanJson (extractJsonFromText raw) with
  | some j => (.ok (clampPlanJson j), store)
  | none =>
    let store1 := recordThreadError store pfx threadKey
      [("lastError", .jstr "Claude plan returned invalid JSON (first pass)."),
       ("lastErrorJobId", .jstr jobId),
       ("lastErrorContext", .jstr "planning:parse:first_pass"),
       ("lastClaudeRawSnippet", .jstr (clampString raw 1800))] now
    match parsePlanJson (extractJsonFromText raw2) with
    | some j => (.ok (clampPlanJson j), store1)
    | none =>
      let store2 := recordThreadError store1 pfx threadKey
        [("lastError", .jstr "Claude plan returned invalid JSON (repair pass)."),
         ("lastErrorJobId", .jstr jobId),
         ("lastErrorContext", .jstr "planning:parse:repair_pass"),
         ("lastClaudeRawSnippet", .jstr (clampString raw2 1800))] now
      (.error ⟨planParseFailMessage raw⟩, store2)

/-! ## Sandbox execution pipeline (`sandboxFastPR`, src/agent/sandbox.js)

The pipeline from plan execution (source line 129) through verification,
change detection, commit, push, pull-request creation and the success-path
error clearing, including the catch-all error record of the surrounding
`try`/`catch`.  The earlier clone/`git config`/checkout prelude (lines
40–109) precedes every behavior the claims concern and aborts the job before
any plan step runs when it fails, so a run of this function corresponds to a
job whose prelude succeeded.  Subprocess execution (`runCmd`) is modelled by
an oracle `ExecEnv` listing, in order, the `{code, out, err}` results of the
spawned commands; `sayProgress` chat output and the external `octokit` call
are effect-free for every claim and are not modelled. -/

/-- The resolution of `runCmd`: exit code plus captured stdout/stderr. -/
structure CmdResult where
  code : Int
  out : String
  err : String

/-- One plan step `{cmd, args}`. -/
structure Step where
  cmd : String
  args : List String

/-- The plan object as `sandboxFastPR` consumes it (after
`claudeSandboxPlan`'s clamps), restricted to the fields the pipeline reads;
`verifyFailed`/`verifyLogs` are the mutable `plan.verify.failed` /
`plan.verify.logs` outcome slots. -/
structure Plan where
  steps : List Step
  verifyCommands : List (List String)
  verifyFailed : Bool
  verifyLogs : String
  commitMessage : Option String
  prTitle : Option String

/-- The fatal errors `sandboxFastPR` can throw after planning succeeded. -/
inductive JobError where
  | blockedCommand (cmd : String) (args : List String)
  | execFailed (cmd : String) (args : List String) (res : CmdResult)
  | blockedVerify (cmd : String) (args : List String)
  | noChanges
  | commitFailed (res : CmdResult)
  | pushFailed (res : CmdResult)

/-- The `Error` message each throw site builds. -/
def errMessage : JobError → String
  | .blockedCommand c a => "Blocked command from plan: " ++ c ++ " " ++ joinSpace a
  | .execFailed c a res =>
    "Command failed: " ++ c ++ " " ++ joinSpace a ++ "\n" ++ safeLogChunk (jsOr res.err res.out)
  | .blockedVerify c a => "Blocked verify command: " ++ c ++ " " ++ joinSpace a
  | .noChanges => "No changes produced in sandbox (git status clean)."
  | .commitFailed res => "git commit failed:\n" ++ safeLogChunk (jsOr res.err res.out)
  | .pushFailed res => "git push failed:\n" ++ safeLogChunk (jsOr res.err res.out)

/-- The oracle for one run: results of the spawned subprocesses, the PR URL
the code host returns, and the wall clock used for brain timestamps. -/
structure ExecEnv where
  stepResults : List CmdResult
  verifyResults : List CmdResult
  statusResult : CmdResult
  commitResult : CmdResult
  pushResult : CmdResult
  prUrl : String
  now : String

/-- Default result when the oracle list is exhausted (a successful,
output-free command). -/
def defaultRes : CmdResult := ⟨0, "", ""⟩

/-- The plan-step loop (source lines 129–157): validate each step with
`commandAllowed`, run it, abort on the first non-zero exit.  Returns the
steps actually launched, the brain store, and the thrown error if any. -/
def runSteps (pfx threadKey jobId now : String) :
    List Step → List CmdResult → Store → List Step × Store × Option JobError
  | [], _, store => ([], store, none)
  | step :: rest, results, store =>
    if commandAllowed step.cmd step.args = false then
      ([], recordThreadError store pfx threadKey
        [("lastError", .jstr "Blocked command from plan"),
         ("lastErrorJobId", .jstr jobId),
         ("lastErrorContext", .jstr "plan:blocked_command"),
         ("lastErrorLogs", .jstr (clampString (step.cmd ++ " " ++ joinSpace step.args) 2000))]
        now,
       some (.blockedCommand step.cmd step.args))
    else
      let res := results.headD defaultRes
      if res.code ≠ 0 then
        ([step], recordThreadError store pfx threadKey
          [("lastError", .jstr "Plan command failed"),
           ("lastErrorJobId", .jstr jobId),
           ("lastErrorContext", .jstr ("plan:exec:" ++ step.cmd)),
           ("lastErrorLogs", .jstr (clampString (safeLogChunk (jsOr res.err res.out) 6000) 6000))]
          now,
         some (.execFailed step.cmd step.args res))
      else
        let r := runSteps pfx threadKey jobId now rest results.tail store
        (step :: r.1, r.2.1, r.2.2)

/-- The verification loop (source lines 160–187): validate each command,
run it; the first non-zero exit sets `verify.failed`, stores capped logs,
records a non-blocking error and breaks WITHOUT raising; a blocklist
rejection raises.  Returns the commands actually launched, the updated plan,
the store, and the thrown error if any. -/
def runVerify (pfx threadKey jobId now : String) :
    List (List String) → List CmdResult → Plan → Store →
      List (List String) × Plan × Store × Option JobError
  | [], _, plan, store => ([], plan, store, none)
  | v :: rest, results, plan, store =>
    let cmd := v.headD ""
    let args := v.tail
    if commandAllowed cmd args = false then
      ([], plan, recordThreadError store pfx threadKey
        [("lastError", .jstr "Blocked verify command"),
         ("lastErrorJobId", .jstr jobId),
         ("lastErrorContext", .jstr "verify:blocked_command"),
         ("lastErrorLogs", .jstr (clampString (cmd ++ " " ++ joinSpace args) 2000))]
        now,
       some (.blockedVerify cmd args))
    else
      let res := results.headD defaultRes
      if res.code ≠ 0 then
        let plan' := { plan with
          verifyFailed := true,
          verifyLogs := safeLogChunk (jsOr res.err res.out) 6000 }
        ([v], plan', recordThreadError store pfx threadKey
          [("lastError", .jstr "Verification failed (non-blocking)"),
           ("lastErrorJobId", .jstr jobId),
           ("lastErrorContext", .jstr ("verify:" ++ cmd)),
           ("lastErrorLogs", .jstr (clampString plan'.verifyLogs 6000))]
          now,
         none)
      else
        let r := runVerify pfx threadKey jobId now rest results.tail plan store
        (v :: r.1, r.2.1, r.2.2.1, r.2.2.2)

/-- What one run of the pipeline did. -/
structure JobOutcome where
  result : Except JobError String
  executedSteps : List Step
  executedVerify : List (List String)
  plan : Plan
  store : Store
  commitAttempted : Bool
  pushAttempted : Bool

/-- The catch-all record of `sandboxFastPR`'s `catch` block, applied to every
thrown error before it propagates. -/
def recordThrow (store : Store) (pfx threadKey jobId now : String)
    (e : JobError) : Store :=
  recordThreadError store pfx threadKey
    [("lastError", .jstr (clampString (errMessage e) 800)),
     ("lastErrorJobId", .jstr jobId),
     ("lastErrorContext", .jstr "sandboxFastPR:throw")] now

/-- `sandboxFastPR` from plan execution onward (source lines 129–264):
run the plan steps; optionally verify (when `config.runTests` and the plan
declares verification commands); abort when `git status --porcelain` is
clean; `git add -A` (result unchecked in the source) and commit; push; open
the PR; clear the thread's error slot on success.  Every thrown error passes
through the catch-all `recordThreadError`. -/
def sandboxFastPR (pfx threadKey jobId : String) (runTests : Bool)
    (plan : Plan) (env : ExecEnv) (store : Store) : JobOutcome :=
  let stepsRun := runSteps pfx threadKey jobId env.now plan.steps env.stepResults store
  match stepsRun.2.2 with
  | some e =>
    { result := .error e, executedSteps := stepsRun.1, executedVerify := [],
      plan := plan, commitAttempted := false, pushAttempted := false,
      store := recordThrow stepsRun.2.1 pfx threadKey jobId env.now e }
  | none =>
    let verifyRun :=
      if runTests && !plan.verifyCommands.isEmpty then
        runVerify pfx threadKey jobId env.now plan.verifyCommands env.verifyResults
          plan stepsRun.2.1
      else ([], plan, stepsRun.2.1, none)
    match verifyRun.2.2.2 with
    | some e =>
      { result := .error e, executedSteps := stepsRun.1,
        executedVerify := verifyRun.1, plan := verifyRun.2.1,
        commitAttempted := false, pushAttempted := false,
        store := recordThrow verifyRun.2.2.1 pfx threadKey jobId env.now e }
    | none =>
      let plan1 := verifyRun.2.1
      let store1 := verifyRun.2.2.1
      if jsTrim env.statusResult.out = "" then
        let store2 := recordThreadError store1 pfx threadKey
          [("lastError", .jstr "No changes produced in sandbox"),
           ("lastErrorJobId", .jstr jobId),
           ("lastErrorContext", .jstr "git:status_clean"),
           ("lastErrorLogs", .jstr "git status was clean after executing plan")]
          env.now
        { result := .error .noChanges, executedSteps := stepsRun.1,
          executedVerify := verifyRun.1, plan := plan1,
          commitAttempted := false, pushAttempted := false,
          store := recordThrow store2 pfx threadKey jobId env.now .noChanges }
      else if env.commitResult.code ≠ 0 then
        let e := JobError.commitFailed env.commitResult
        let store2 := recordThreadError store1 pfx threadKey
          [("lastError", .jstr "git commit failed"),
           ("lastErrorJobId", .jstr jobId),
           ("lastErrorContext", .jstr "git:commit"),
           ("lastErrorLogs",
            .jstr (clampString (safeLogChunk (jsOr env.commitResult.err env.commitResult.out) 6000) 6000))]
          env.now
        { result := .error e, executedSteps := stepsRun.1,
          executedVerify := verifyRun.1, plan := plan1,
          commitAttempted := true, pushAttempted := false,
          store := recordThrow store2 pfx threadKey jobId env.now e }
      else if env.pushResult.code ≠ 0 then
        let e := JobError.pushFailed env.pushResult
        let store2 := recordThreadError store1 pfx threadKey
          [("lastError", .jstr "git push failed"),
           ("lastErrorJobId", .jstr jobId),
           ("lastErrorContext", .jstr "git:push"),
           ("lastErrorLogs",
            .jstr (clampString (safeLogChunk (jsOr env.pushResult.err env.pushResult.out) 6000) 6000))]
          env.now
        { result := .error e, executedSteps := stepsRun.1,
          executedVerify := verifyRun.1, plan := plan1,
          commitAttempted := true, pushAttempted := true,
          store := recordThrow store2 pfx threadKey jobId env.now e }
      else
        let storeS := recordThreadError store1 pfx threadKey
          [("lastError", .jnull),
           ("lastErrorJobId", .jnull),
           ("lastErrorContext", .jnull),
           ("lastErrorLogs", .jnull),
           ("lastClaudeRawSnippet", .jnull)] env.now
        { result := .ok env.prUrl, executedSteps := stepsRun.1,
          executedVerify := verifyRun.1, plan := plan1,
          commitAttempted := true, pushAttempted := true, store := storeS }

/-! ## Rate limiter (src/util/rateLimit.js)

`rateState` is a process-local `Map` from requester key to `{ts, count}`;
`Date.now()` is an explicit `now` argument in milliseconds.  `Date.now()` is
nondecreasing across the sequential calls of one process, so `now - cur.ts`
is a nonnegative JS number whenever `cur.ts ≤ now`, which truncated `Nat`
subtraction models exactly (and when a model caller passed `now < cur.ts`,
both the JS negative difference and the truncated-to-zero difference fail
the `> 30000` test alike). -/

/-- One `rateState` entry `{ts, count}`. -/
structure RateEntry where
  ts : Nat
  count : Nat

/-- The `rateState` map. -/
abbrev RateState := List (String × RateEntry)

/-- `RATE_LIMIT_WINDOW_MS`. -/
def rateLimitWindowMs : Nat := 30000

/-- `RATE_LIMIT_MAX`. -/
def rateLimitMax : Nat := 6

/-- `Map.prototype.get`. -/
def rateGet (st : RateState) (key : String) : Option RateEntry :=
  st.lookup key

/-- `Map.prototype.set` (and in-place entry mutation). -/
def rateSet (st : RateState) (key : String) (e : RateEntry) : RateState :=
  (key, e) :: st.filter (fun p => !(p.1 = key))

/-- `rateLimitOk(key)` from src/util/rateLimit.js, at clock reading `now`. -/
def rateLimitOk (st : RateState) (key : String) (now : Nat) :
    Bool × RateState :=
  match rateGet st key with
  | none => (true, rateSet st key ⟨now, 1⟩)
  | some cur =>
    if now - cur.ts > rateLimitWindowMs then (true, rateSet st key ⟨now, 1⟩)
    else if cur.count ≥ rateLimitMax then (false, st)
    else (true, rateSet st key ⟨cur.ts, cur.count + 1⟩)

/-- Run `rateLimitOk` over a sequence of call times for one key, collecting
the returned booleans. -/
def rateCalls (key : String) : List Nat → RateState → List Bool × RateState
  | [], st => ([], st)
  | t :: ts, st =>
    let r := rateLimitOk st key t
    let rec' := rateCalls key ts r.2
    (r.1 :: rec'.1, rec'.2)

/-- Characters that are inert for the whole extraction/parsing pipeline:
not a quote, escape, brace or backtick, not whitespace, not a control
character.  Used to delimit the string contents for which the truncation
repair of `parsePlanJson` is analysed. -/
def plainChar (c : Char) : Bool :=
  !(c = '"' || c = '\\' || c = '{' || c = '}' || c = '`') && !(jsWs c) &&
    decide (c.toNat ≥ 32)

/-! ## Basic lemmas about object and store lookup -/

theorem objGet_append_some (a b : Obj) (k : String) (v : JVal)
    (h : objGet b k = some v) : objGet (a ++ b) k = some v := by
  induction a with
  | nil => simpa using h
  | cons hd t ih =>
    cases hd with
    | mk k' w => simp only [List.cons_append, objGet, List.append_eq, ih]

theorem objGet_append_none (a b : Obj) (k : String)
    (h : objGet b k = none) : objGet (a ++ b) k = objGet a k := by
  induction a with
  | nil => simpa using h
  | cons hd t ih =>
    cases hd with
    | mk k' w => simp only [List.cons_append, objGet, List.append_eq, ih]

theorem storeGet_append_some (a b : Store) (p : String) (o : Obj)
    (h : storeGet b p = some o) : storeGet (a ++ b) p = some o := by
  induction a with
  | nil => simpa using h
  | cons hd t ih =>
    cases hd with
    | mk p' w => simp only [List.cons_append, storeGet, List.append_eq, ih]

theorem storeGet_set_self (s : Store) (p : String) (o : Obj) :
    storeGet (storeSet s p o) p = some o := by
  apply storeGet_append_some
  simp [storeGet]

/-! ## Claim C1 -/

/-- C1: `commandAllowed` returns false for every program outside the fixed
vocabulary {git, npm, node} regardless of arguments, and likewise whenever
the lowercased space-joined concatenation of program and arguments contains
one of the blocked substrings. -/
theorem C1_commandAllowed_vocabulary_and_blocklist (cmd : String) (args : List String)
    (h : allowPrograms.contains cmd = false ∨
      ∃ b ∈ blockedSubstrings,
        strContains (jsToLowerCase (joinSpace (cmd :: args))) b = true) :
    commandAllowed cmd args = false := by
  rcases h with h | h
  · have hmem : cmd ∉ allowPrograms := by simpa using h
    simp [commandAllowed, hmem]
  · have hany : blockedSubstrings.any
        (fun b => strContains (jsToLowerCase (joinSpace (cmd :: args))) b) = true := by
      rw [List.any_eq_true]
      obtain ⟨b, hb, hc⟩ := h
      exact ⟨b, hb, hc⟩
    unfold commandAllowed
    split
    · rfl
    · simp [hany]

/-- Witness for C1: `python` is outside the vocabulary, and a `git` command
whose joined text contains `curl` is also rejected. -/
theorem C1_commandAllowed_vocabulary_and_blocklist_witness :
    (allowPrograms.contains "python" = false ∧ commandAllowed "python" ["x"] = false) ∧
    ((∃ b ∈ blockedSubstrings,
        strContains (jsToLowerCase (joinSpace ("git" :: ["clone", "https://Curl.example"]))) b = true) ∧
      commandAllowed "git" ["clone", "https://Curl.example"] = false) :=
  ⟨⟨by decide, C1_commandAllowed_vocabulary_and_blocklist "python" ["x"] (Or.inl (by decide))⟩,
   ⟨⟨"curl", by decide, by decide⟩,
    C1_commandAllowed_vocabulary_and_blocklist "git" ["clone", "https://Curl.example"]
      (Or.inr ⟨"curl", by decide, by decide⟩)⟩⟩

/-! ## Claim C2 -/

/-- C2 counterexample: sanitization is NOT injective.  The distinct
owner/repo pairs `("a", "b_c")` and `("a_b", "c")` produce distinct repo keys
yet the same storage-object path, because `/` and `_` are conflated; likewise
the two distinct thread keys `"team:chan nel:1"` and `"team:chan_nel:1"`
collide. -/
theorem C2_counterexample :
    (("a", "b_c") ≠ (("a_b", "c") : String × String)) ∧
    repoKey "a" "b_c" ≠ repoKey "a_b" "c" ∧
    brainObjectPath "openclaw-brain" "repos" (repoKey "a" "b_c") =
      brainObjectPath "openclaw-brain" "repos" (repoKey "a_b" "c") ∧
    ("team:chan nel:1" : String) ≠ "team:chan_nel:1" ∧
    brainObjectPath "openclaw-brain" "threads" "team:chan nel:1" =
      brainObjectPath "openclaw-brain" "threads" "team:chan_nel:1" := by
  refine ⟨by decide, by decide, by decide, by decide, by decide⟩

theorem map_id_of_mem {l : List Char} {f : Char → Char}
    (h : ∀ c ∈ l, f c = c) : l.map f = l := by
  induction l with
  | nil => rfl
  | cons a t ih =>
    simp only [List.map_cons, h a (by simp), List.cons.injEq, true_and]
    exact ih fun c hc => h c (by simp [hc])

theorem sanitizedKey_of_safe {k : String} (h : ∀ c ∈ k.data, safeChar c = true) :
    sanitizedKey k = k := by
  show (⟨k.data.map _⟩ : String) = k
  rw [map_id_of_mem (fun c hc => by simp [h c hc])]

/-- C2 amended: the sanitization conflates every character outside the safe
alphabet with `_`, so distinct keys can collide (see the counterexample);
restricted to keys made of safe-alphabet characters it is the identity, and
then `brainObjectPath` is injective in the key for a fixed namespace and
scope kind. -/
theorem C2_amended_safe_keys_no_collision (pfx kind k1 k2 : String)
    (h1 : ∀ c ∈ k1.data, safeChar c = true)
    (h2 : ∀ c ∈ k2.data, safeChar c = true)
    (hne : k1 ≠ k2) :
    brainObjectPath pfx kind k1 ≠ brainObjectPath pfx kind k2 := by
  unfold brainObjectPath
  rw [sanitizedKey_of_safe h1, sanitizedKey_of_safe h2]
  intro h
  apply hne
  have hd := congrArg String.data h
  simp only [String.data_append, List.append_assoc] at hd
  have hd2 := List.append_cancel_left hd
  have hd3 := List.append_cancel_left hd2
  have hd4 := List.append_cancel_left hd3
  have hd5 := List.append_cancel_left hd4
  have hd6 := List.append_cancel_right hd5
  cases k1; cases k2
  exact congrArg String.mk (by simpa using hd6)

/-- Witness for the amended C2 on two concrete safe-alphabet thread keys. -/
theorem C2_amended_safe_keys_no_collision_witness :
    (∀ c ∈ ("team:chan:1" : String).data, safeChar c = true) ∧
    (∀ c ∈ ("team:chan:2" : String).data, safeChar c = true) ∧
    brainObjectPath "openclaw-brain" "threads" "team:chan:1" ≠
      brainObjectPath "openclaw-brain" "threads" "team:chan:2" :=
  ⟨by decide, by decide,
   C2_amended_safe_keys_no_collision "openclaw-brain" "threads" _ _
     (by decide) (by decide) (by decide)⟩

/-! ## Claim C7 -/

theorem saveMergeObj_get_of_not_key (existing patch : Obj) (now k : String)
    (hk : objGet patch k = none) (hu : k ≠ "updatedAt") (hv : k ≠ "version") :
    objGet (saveMergeObj existing patch now) k = objGet existing k := by
  unfold saveMergeObj
  have hu' : ¬ ("updatedAt" = k) := fun h => hu h.symm
  have hv' : ¬ ("version" = k) := fun h => hv h.symm
  have hstamp : objGet [("updatedAt", JVal.jstr now), ("version", JVal.jnum "1")] k = none := by
    simp [objGet, hu', hv']
  rw [objGet_append_none _ _ _ hstamp, objGet_append_none _ _ _ hk]

theorem saveMergeObj_get_updatedAt (existing patch : Obj) (now : String) :
    objGet (saveMergeObj existing patch now) "updatedAt" = some (.jstr now) := by
  unfold saveMergeObj
  apply objGet_append_some
  simp [objGet]

theorem saveMergeObj_get_version (existing patch : Obj) (now : String) :
    objGet (saveMergeObj existing patch now) "version" = some (.jnum "1") := by
  unfold saveMergeObj
  apply objGet_append_some
  simp [objGet]

theorem loadThread_saveThread (store : Store) (pfx tk : String) (patch : Obj)
    (now : String) :
    loadThread (saveThread store pfx tk patch now) pfx tk =
      some (saveMergeObj ((loadThread store pfx tk).getD []) patch now) :=
  storeGet_set_self _ _ _

theorem loadRepo_saveRepo (store : Store) (pfx owner repo : String) (patch : Obj)
    (now : String) :
    loadRepo (saveRepo store pfx owner repo patch now) pfx owner repo =
      some (saveMergeObj ((loadRepo store pfx owner repo).getD []) patch now) :=
  storeGet_set_self _ _ _

/-- C7: `saveThread` and `saveRepo` merge the patch over the stored record —
every field that is not a key of the patch (and is not one of the two stamp
fields) is preserved — and every write stamps `updatedAt` with the write time
and integer `version` 1. -/
theorem C7_save_merges_and_stamps (store : Store) (pfx tk owner repo : String)
    (patch : Obj) (now k : String)
    (hk : objGet patch k = none) (hu : k ≠ "updatedAt") (hv : k ≠ "version") :
    (objGet ((loadThread (saveThread store pfx tk patch now) pfx tk).getD []) k =
        objGet ((loadThread store pfx tk).getD []) k ∧
      objGet ((loadThread (saveThread store pfx tk patch now) pfx tk).getD []) "updatedAt" =
        some (.jstr now) ∧
      objGet ((loadThread (saveThread store pfx tk patch now) pfx tk).getD []) "version" =
        some (.jnum "1")) ∧
    (objGet ((loadRepo (saveRepo store pfx owner repo patch now) pfx owner repo).getD []) k =
        objGet ((loadRepo store pfx owner repo).getD []) k ∧
      objGet ((loadRepo (saveRepo store pfx owner repo patch now) pfx owner repo).getD [])
          "updatedAt" = some (.jstr now) ∧
      objGet ((loadRepo (saveRepo store pfx owner repo patch now) pfx owner repo).getD [])
          "version" = some (.jnum "1")) := by
  rw [loadThread_saveThread, loadRepo_saveRepo]
  exact ⟨⟨saveMergeObj_get_of_not_key _ _ _ _ hk hu hv,
          saveMergeObj_get_updatedAt _ _ _, saveMergeObj_get_version _ _ _⟩,
         ⟨saveMergeObj_get_of_not_key _ _ _ _ hk hu hv,
          saveMergeObj_get_updatedAt _ _ _, saveMergeObj_get_version _ _ _⟩⟩

/-- Witness for C7, on the spec's own example: a patch containing only
`lastError` leaves a previously stored `lastRepo` unchanged. -/
theorem C7_save_merges_and_stamps_witness :
    (objGet [("lastError", JVal.jstr "boom")] "lastRepo" = none ∧
      ("lastRepo" : String) ≠ "updatedAt" ∧ ("lastRepo" : String) ≠ "version") ∧
    objGet ((loadThread
        (saveThread [(brainObjectPath "p" "threads" "T", [("lastRepo", JVal.jstr "o/r")])]
          "p" "T" [("lastError", JVal.jstr "boom")] "2026-01-01T00:00:00.000Z")
        "p" "T").getD []) "lastRepo" = some (.jstr "o/r") :=
  ⟨⟨rfl, by decide, by decide⟩,
   ((C7_save_merges_and_stamps
      [(brainObjectPath "p" "threads" "T", [("lastRepo", JVal.jstr "o/r")])]
      "p" "T" "o" "r" [("lastError", JVal.jstr "boom")] "2026-01-01T00:00:00.000Z"
      "lastRepo" rfl (by decide) (by decide)).1.1).trans (by rfl)⟩

/-! ## Claim C10 -/

theorem rateCalls_window (key : String) (t0 : Nat) (c : Nat) (times : List Nat)
    (hc1 : 1 ≤ c) (hc6 : c ≤ 6)
    (hw : ∀ t ∈ times, t0 ≤ t ∧ t - t0 ≤ rateLimitWindowMs) :
    rateCalls key times [(key, ⟨t0, c⟩)] =
      ((List.range times.length).map (fun i => decide (c + i < 6)),
       [(key, ⟨t0, min (c + times.length) 6⟩)]) := by
  induction times generalizing c with
  | nil =>
    simp [rateCalls, Nat.min_eq_left hc6]
  | cons t ts ih =>
    obtain ⟨hle, hwin⟩ := hw t (List.mem_cons_self _ _)
    have hnw : ¬ (t - t0 > rateLimitWindowMs) := by omega
    have hwts : ∀ u ∈ ts, t0 ≤ u ∧ u - t0 ≤ rateLimitWindowMs :=
      fun u hu => hw u (List.mem_cons_of_mem _ hu)
    by_cases hc : c < 6
    · have hnot6 : ¬ (c ≥ rateLimitMax) := by
        simp only [rateLimitMax]; omega
      have step : rateLimitOk [(key, ⟨t0, c⟩)] key t = (true, [(key, ⟨t0, c + 1⟩)]) := by
        simp [rateLimitOk, rateGet, rateSet, List.lookup, hnw, hnot6, List.filter]
      have ihc := ih (c + 1) (by omega) (by omega) hwts
      simp only [rateCalls, step, ihc]
      rw [Prod.mk.injEq]
      refine ⟨?_, ?_⟩
      · simp only [List.length_cons]
        rw [List.range_succ_eq_map, List.map_cons, List.map_map]
        refine congrArg₂ List.cons ?_ ?_
        · symm
          simpa using hc
        · apply List.map_congr_left
          intro i _
          show decide (c + 1 + i < 6) = decide (c + Nat.succ i < 6)
          rw [show c + Nat.succ i = c + 1 + i from by omega]
      · simp only [List.length_cons]
        rw [show c + (ts.length + 1) = c + 1 + ts.length from by omega]
    · have h6 : c = 6 := by omega
      subst h6
      have hge : (6 : Nat) ≥ rateLimitMax := by simp [rateLimitMax]
      have step : rateLimitOk [(key, ⟨t0, 6⟩)] key t = (false, [(key, ⟨t0, 6⟩)]) := by
        simp [rateLimitOk, rateGet, List.lookup, hnw, hge]
      have ihc := ih 6 hc1 hc6 hwts
      simp only [rateCalls, step, ihc]
      rw [Prod.mk.injEq]
      refine ⟨?_, ?_⟩
      · simp only [List.length_cons]
        rw [List.range_succ_eq_map, List.map_cons, List.map_map]
        refine congrArg₂ List.cons ?_ ?_
        · decide
        · apply List.map_congr_left
          intro i _
          show decide (6 + i < 6) = decide (6 + Nat.succ i < 6)
          rw [decide_eq_false (by omega), decide_eq_false (by omega)]
      · simp only [List.length_cons]
        rw [Nat.min_eq_right (by omega), Nat.min_eq_right (by omega)]

/-- C10: starting from a state with no entry for the key, the first call
(at time `t0`) opens a 30-second window; among the calls whose times lie
within that window exactly the first 6 return true and every further one
returns false, and the first call past the window is accepted again and
starts a fresh window (count 1 at the new time). -/
theorem C10_rateLimit_fixed_window (key : String) (t0 : Nat) (rest : List Nat)
    (tNext : Nat)
    (hw : ∀ t ∈ rest, t0 ≤ t ∧ t - t0 ≤ rateLimitWindowMs)
    (_h1 : t0 ≤ tNext) (h2 : rateLimitWindowMs < tNext - t0) :
    (rateCalls key (t0 :: rest) []).1 =
      (List.range (rest.length + 1)).map (fun i => decide (i < 6)) ∧
    (rateLimitOk (rateCalls key (t0 :: rest) []).2 key tNext).1 = true ∧
    rateGet (rateLimitOk (rateCalls key (t0 :: rest) []).2 key tNext).2 key =
      some ⟨tNext, 1⟩ := by
  have first : rateLimitOk [] key t0 = (true, [(key, ⟨t0, 1⟩)]) := by
    simp [rateLimitOk, rateGet, rateSet, List.lookup, List.filter]
  have main := rateCalls_window key t0 1 rest (le_refl 1) (by omega) hw
  have full : rateCalls key (t0 :: rest) [] =
      ((true : Bool) :: (List.range rest.length).map (fun i => decide (1 + i < 6)),
       [(key, ⟨t0, min (1 + rest.length) 6⟩)]) := by
    simp only [rateCalls, first, main]
  refine ⟨?_, ?_, ?_⟩
  · simp only [full]
    rw [List.range_succ_eq_map, List.map_cons, List.map_map]
    refine congrArg₂ List.cons ?_ ?_
    · decide
    · apply List.map_congr_left
      intro i _
      show decide (1 + i < 6) = decide (Nat.succ i < 6)
      rw [show Nat.succ i = 1 + i from by omega]
  · simp only [full]
    have hgt2 : tNext - t0 > rateLimitWindowMs := h2
    simp [rateLimitOk, rateGet, List.lookup, hgt2]
  · simp only [full]
    have hgt2 : tNext - t0 > rateLimitWindowMs := h2
    simp [rateLimitOk, rateGet, rateSet, List.lookup, List.filter, hgt2]

/-- Witness for C10: eight in-window calls (the last at the inclusive
30-second boundary) return true exactly six times, and a call at 30001 ms is
accepted and opens a fresh window. -/
theorem C10_rateLimit_fixed_window_witness :
    ((∀ t ∈ [1000, 2000, 3000, 4000, 5000, 6000, 30000],
        (0 : Nat) ≤ t ∧ t - 0 ≤ rateLimitWindowMs) ∧
      (0 : Nat) ≤ 30001 ∧ rateLimitWindowMs < 30001 - 0) ∧
    ((rateCalls "user" (0 :: [1000, 2000, 3000, 4000, 5000, 6000, 30000]) []).1 =
        (List.range ([1000, 2000, 3000, 4000, 5000, 6000, 30000].length + 1)).map
          (fun i => decide (i < 6)) ∧
      (rateLimitOk
        (rateCalls "user" (0 :: [1000, 2000, 3000, 4000, 5000, 6000, 30000]) []).2
        "user" 30001).1 = true ∧
      rateGet (rateLimitOk
        (rateCalls "user" (0 :: [1000, 2000, 3000, 4000, 5000, 6000, 30000]) []).2
        "user" 30001).2 "user" = some ⟨30001, 1⟩) :=
  ⟨⟨by decide, by decide, by decide⟩,
   C10_rateLimit_fixed_window "user" 0 [1000, 2000, 3000, 4000, 5000, 6000, 30000]
     30001 (by decide) (by decide) (by decide)⟩

/-! ## Pipeline stage lemmas -/

theorem getD_zero_eq_headD (results : List CmdResult) :
    results.getD 0 defaultRes = results.headD defaultRes := by
  cases results <;> rfl

theorem getD_succ_eq_tail_getD (results : List CmdResult) (j : Nat) :
    results.getD (j + 1) defaultRes = results.tail.getD j defaultRes := by
  cases results <;> rfl

/-- Unfolding of the step loop on an allowed, succeeding head step. -/
theorem runSteps_cons_ok (pfx tk jid now : String) (s : Step) (t : List Step)
    (results : List CmdResult) (store : Store)
    (ha : commandAllowed s.cmd s.args = true)
    (h0 : (results.headD defaultRes).code = 0) :
    runSteps pfx tk jid now (s :: t) results store =
      (s :: (runSteps pfx tk jid now t results.tail store).1,
       (runSteps pfx tk jid now t results.tail store).2.1,
       (runSteps pfx tk jid now t results.tail store).2.2) := by
  cases results with
  | nil => simp [runSteps, ha, defaultRes]
  | cons r rs =>
    simp only [List.headD_cons] at h0
    simp [runSteps, ha, h0]

/-- Unfolding of the step loop on an allowed head step whose execution
exits non-zero. -/
theorem runSteps_cons_fail (pfx tk jid now : String) (s : Step) (t : List Step)
    (results : List CmdResult) (store : Store)
    (ha : commandAllowed s.cmd s.args = true)
    (hf : (results.headD defaultRes).code ≠ 0) :
    runSteps pfx tk jid now (s :: t) results store =
      ([s], recordThreadError store pfx tk
        [("lastError", .jstr "Plan command failed"),
         ("lastErrorJobId", .jstr jid),
         ("lastErrorContext", .jstr ("plan:exec:" ++ s.cmd)),
         ("lastErrorLogs", .jstr (clampString (safeLogChunk
           (jsOr (results.headD defaultRes).err (results.headD defaultRes).out) 6000) 6000))]
        now,
       some (.execFailed s.cmd s.args (results.headD defaultRes))) := by
  cases results with
  | nil => exact absurd rfl hf
  | cons r rs =>
    simp only [List.headD_cons] at hf ⊢
    simp [runSteps, ha, hf]

theorem runSteps_ok (pfx tk jid now : String) (steps : List Step)
    (results : List CmdResult) (store : Store)
    (hallow : ∀ s ∈ steps, commandAllowed s.cmd s.args = true)
    (hok : ∀ j < steps.length, (results.getD j defaultRes).code = 0) :
    runSteps pfx tk jid now steps results store = (steps, store, none) := by
  induction steps generalizing results with
  | nil => rfl
  | cons s t ih =>
    rw [runSteps_cons_ok pfx tk jid now s t results store
      (hallow s (List.mem_cons_self _ _))
      (by rw [← getD_zero_eq_headD]; exact hok 0 (by simp))]
    rw [ih results.tail (fun u hu => hallow u (List.mem_cons_of_mem _ hu))
      (fun j hj => by
        rw [← getD_succ_eq_tail_getD]
        exact hok (j + 1) (by simpa using Nat.succ_lt_succ hj))]

theorem runSteps_first_fail (pfx tk jid now : String) (steps : List Step)
    (results : List CmdResult) (store : Store) (i : Nat)
    (hallow : ∀ s ∈ steps, commandAllowed s.cmd s.args = true)
    (hi : i < steps.length)
    (hok : ∀ j < i, (results.getD j defaultRes).code = 0)
    (hfail : (results.getD i defaultRes).code ≠ 0) :
    ∃ st, runSteps pfx tk jid now steps results store =
      (steps.take (i + 1), st,
       some (.execFailed (steps.getD i ⟨"", []⟩).cmd (steps.getD i ⟨"", []⟩).args
         (results.getD i defaultRes))) := by
  induction i generalizing steps results store with
  | zero =>
    cases steps with
    | nil => simp at hi
    | cons s t =>
      refine ⟨recordThreadError store pfx tk
        [("lastError", .jstr "Plan command failed"),
         ("lastErrorJobId", .jstr jid),
         ("lastErrorContext", .jstr ("plan:exec:" ++ s.cmd)),
         ("lastErrorLogs", .jstr (clampString (safeLogChunk
           (jsOr (results.headD defaultRes).err (results.headD defaultRes).out) 6000) 6000))]
        now, ?_⟩
      rw [runSteps_cons_fail pfx tk jid now s t results store
        (hallow s (List.mem_cons_self _ _))
        (by rw [← getD_zero_eq_headD]; exact hfail), getD_zero_eq_headD]
      rfl
  | succ i ih =>
    cases steps with
    | nil => simp at hi
    | cons s t =>
      obtain ⟨st, hst⟩ := ih t results.tail store
        (fun u hu => hallow u (List.mem_cons_of_mem _ hu))
        (by simpa using Nat.lt_of_succ_lt_succ hi)
        (fun j hj => by
          rw [← getD_succ_eq_tail_getD]
          exact hok (j + 1) (Nat.succ_lt_succ hj))
        (by rw [← getD_succ_eq_tail_getD]; exact hfail)
      refine ⟨st, ?_⟩
      rw [runSteps_cons_ok pfx tk jid now s t results store
        (hallow s (List.mem_cons_self _ _))
        (by rw [← getD_zero_eq_headD]; exact hok 0 (Nat.succ_pos _)), hst,
        getD_succ_eq_tail_getD]
      rfl

/-- Unfolding of the verification loop on an allowed, succeeding command. -/
theorem runVerify_cons_ok (pfx tk jid now : String) (v : List String)
    (rest : List (List String)) (results : List CmdResult) (plan : Plan)
    (store : Store)
    (ha : commandAllowed (v.headD "") v.tail = true)
    (h0 : (results.headD defaultRes).code = 0) :
    runVerify pfx tk jid now (v :: rest) results plan store =
      (v :: (runVerify pfx tk jid now rest results.tail plan store).1,
       (runVerify pfx tk jid now rest results.tail plan store).2.1,
       (runVerify pfx tk jid now rest results.tail plan store).2.2.1,
       (runVerify pfx tk jid now rest results.tail plan store).2.2.2) := by
  cases results with
  | nil =>
    cases v with
    | nil => simp_all [runVerify, defaultRes]
    | cons c a => simp_all [runVerify, defaultRes]
  | cons r rs =>
    simp only [List.headD_cons] at h0
    cases v with
    | nil => simp_all [runVerify]
    | cons c a => simp_all [runVerify]

/-- Unfolding of the verification loop on an allowed command whose execution
exits non-zero: the loop breaks without an error. -/
theorem runVerify_cons_fail (pfx tk jid now : String) (v : List String)
    (rest : List (List String)) (results : List CmdResult) (plan : Plan)
    (store : Store)
    (ha : commandAllowed (v.headD "") v.tail = true)
    (hf : (results.headD defaultRes).code ≠ 0) :
    runVerify pfx tk jid now (v :: rest) results plan store =
      ([v],
       { plan with
         verifyFailed := true,
         verifyLogs := safeLogChunk
           (jsOr (results.headD defaultRes).err (results.headD defaultRes).out) 6000 },
       recordThreadError store pfx tk
        [("lastError", .jstr "Verification failed (non-blocking)"),
         ("lastErrorJobId", .jstr jid),
         ("lastErrorContext", .jstr ("verify:" ++ v.headD "")),
         ("lastErrorLogs", .jstr (clampString (safeLogChunk
           (jsOr (results.headD defaultRes).err (results.headD defaultRes).out) 6000) 6000))]
        now,
       none) := by
  cases results with
  | nil => exact absurd rfl hf
  | cons r rs =>
    simp only [List.headD_cons] at hf ⊢
    cases v with
    | nil => simp_all [runVerify]
    | cons c a => simp_all [runVerify]

theorem runVerify_err_none (pfx tk jid now : String) (cmds : List (List String))
    (results : List CmdResult) (plan : Plan) (store : Store)
    (hallow : ∀ v ∈ cmds, commandAllowed (v.headD "") v.tail = true) :
    (runVerify pfx tk jid now cmds results plan store).2.2.2 = none := by
  induction cmds generalizing results plan store with
  | nil => rfl
  | cons v rest ih =>
    have ha : commandAllowed (v.headD "") v.tail = true := hallow v (List.mem_cons_self _ _)
    by_cases hf : (results.headD defaultRes).code = 0
    · rw [runVerify_cons_ok pfx tk jid now v rest results plan store ha hf]
      exact ih results.tail plan store (fun u hu => hallow u (List.mem_cons_of_mem _ hu))
    · rw [runVerify_cons_fail pfx tk jid now v rest results plan store ha hf]

theorem runVerify_first_fail (pfx tk jid now : String) (cmds : List (List String))
    (results : List CmdResult) (plan : Plan) (store : Store) (k : Nat)
    (hallow : ∀ v ∈ cmds, commandAllowed (v.headD "") v.tail = true)
    (hk : k < cmds.length)
    (hok : ∀ j < k, (results.getD j defaultRes).code = 0)
    (hfail : (results.getD k defaultRes).code ≠ 0) :
    ∃ st, runVerify pfx tk jid now cmds results plan store =
      (cmds.take (k + 1),
       { plan with
         verifyFailed := true,
         verifyLogs := safeLogChunk
           (jsOr (results.getD k defaultRes).err (results.getD k defaultRes).out) 6000 },
       st, none) := by
  induction k generalizing cmds results store with
  | zero =>
    cases cmds with
    | nil => simp at hk
    | cons v rest =>
      refine ⟨recordThreadError store pfx tk
        [("lastError", .jstr "Verification failed (non-blocking)"),
         ("lastErrorJobId", .jstr jid),
         ("lastErrorContext", .jstr ("verify:" ++ v.headD "")),
         ("lastErrorLogs", .jstr (clampString (safeLogChunk
           (jsOr (results.headD defaultRes).err (results.headD defaultRes).out) 6000) 6000))]
        now, ?_⟩
      rw [runVerify_cons_fail pfx tk jid now v rest results plan store
        (hallow v (List.mem_cons_self _ _))
        (by rw [← getD_zero_eq_headD]; exact hfail), getD_zero_eq_headD]
      rfl
  | succ k ih =>
    cases cmds with
    | nil => simp at hk
    | cons v rest =>
      obtain ⟨st, hst⟩ := ih rest results.tail store
        (fun u hu => hallow u (List.mem_cons_of_mem _ hu))
        (by simpa using Nat.lt_of_succ_lt_succ hk)
        (fun j hj => by
          rw [← getD_succ_eq_tail_getD]
          exact hok (j + 1) (Nat.succ_lt_succ hj))
        (by rw [← getD_succ_eq_tail_getD]; exact hfail)
      refine ⟨st, ?_⟩
      rw [runVerify_cons_ok pfx tk jid now v rest results plan store
        (hallow v (List.mem_cons_self _ _))
        (by rw [← getD_zero_eq_headD]; exact hok 0 (Nat.succ_pos _)), hst,
        getD_succ_eq_tail_getD]
      rfl

/-! ## Claim C3 -/

/-- C3: when verification runs (tests enabled, commands declared), the first
verification command exiting non-zero sets `verify.failed`, stores the capped
captured output in `verify.logs` (`safeLogChunk(err || out, 6000)`), stops the
verification loop after that command, and does not abort the job: the result,
commit-attempt and push-attempt of the run equal those of the identical run
with verification disabled, so the job still proceeds to change detection,
commit, push and PR creation. -/
theorem C3_verification_advisory (pfx tk jid : String) (plan : Plan)
    (env : ExecEnv) (store : Store) (k : Nat)
    (hsallow : ∀ s ∈ plan.steps, commandAllowed s.cmd s.args = true)
    (hsok : ∀ j < plan.steps.length, (env.stepResults.getD j defaultRes).code = 0)
    (hvallow : ∀ v ∈ plan.verifyCommands, commandAllowed (v.headD "") v.tail = true)
    (hk : k < plan.verifyCommands.length)
    (hvok : ∀ j < k, (env.verifyResults.getD j defaultRes).code = 0)
    (hvfail : (env.verifyResults.getD k defaultRes).code ≠ 0) :
    (sandboxFastPR pfx tk jid true plan env store).plan.verifyFailed = true ∧
    (sandboxFastPR pfx tk jid true plan env store).plan.verifyLogs =
      safeLogChunk (jsOr (env.verifyResults.getD k defaultRes).err
        (env.verifyResults.getD k defaultRes).out) 6000 ∧
    (sandboxFastPR pfx tk jid true plan env store).executedVerify =
      plan.verifyCommands.take (k + 1) ∧
    (sandboxFastPR pfx tk jid true plan env store).result =
      (sandboxFastPR pfx tk jid false plan env store).result ∧
    (sandboxFastPR pfx tk jid true plan env store).commitAttempted =
      (sandboxFastPR pfx tk jid false plan env store).commitAttempted ∧
    (sandboxFastPR pfx tk jid true plan env store).pushAttempted =
      (sandboxFastPR pfx tk jid false plan env store).pushAttempted := by
  have hsteps := runSteps_ok pfx tk jid env.now plan.steps env.stepResults store
    hsallow hsok
  obtain ⟨vst, hv⟩ := runVerify_first_fail pfx tk jid env.now plan.verifyCommands
    env.verifyResults plan store k hvallow hk hvok hvfail
  have hne : plan.verifyCommands.isEmpty = false := by
    cases hcmds : plan.verifyCommands with
    | nil => rw [hcmds] at hk; simp at hk
    | cons a l => rfl
  simp only [sandboxFastPR, hsteps, hne, hv, Bool.true_and, Bool.false_and,
    Bool.not_false, if_true, if_false]
  by_cases hst : jsTrim env.statusResult.out = ""
  · simp [hst]
  · by_cases hc : env.commitResult.code = 0
    · by_cases hp : env.pushResult.code = 0
      · simp [hst, hc, hp]
      · simp [hst, hc, hp]
    · simp [hst, hc]

/-- Witness for C3: a job with no plan steps and one failing verify command
still succeeds end to end, with the failure recorded in the plan. -/
theorem C3_verification_advisory_witness :
    ((∀ s ∈ ([] : List Step), commandAllowed s.cmd s.args = true) ∧
      (∀ v ∈ [["npm", "test"]], commandAllowed (v.headD "") v.tail = true) ∧
      0 < [["npm", "test"]].length ∧
      (([⟨1, "FAIL", ""⟩] : List CmdResult).getD 0 defaultRes).code ≠ 0) ∧
    ((sandboxFastPR "p" "tk" "j" true
        ⟨[], [["npm", "test"]], false, "", none, none⟩
        ⟨[], [⟨1, "FAIL", ""⟩], ⟨0, "M f", ""⟩, ⟨0, "", ""⟩, ⟨0, "", ""⟩, "u", "T"⟩
        []).plan.verifyFailed = true ∧
      (sandboxFastPR "p" "tk" "j" true
        ⟨[], [["npm", "test"]], false, "", none, none⟩
        ⟨[], [⟨1, "FAIL", ""⟩], ⟨0, "M f", ""⟩, ⟨0, "", ""⟩, ⟨0, "", ""⟩, "u", "T"⟩
        []).plan.verifyLogs =
        safeLogChunk (jsOr (([⟨1, "FAIL", ""⟩] : List CmdResult).getD 0 defaultRes).err
          (([⟨1, "FAIL", ""⟩] : List CmdResult).getD 0 defaultRes).out) 6000 ∧
      (sandboxFastPR "p" "tk" "j" true
        ⟨[], [["npm", "test"]], false, "", none, none⟩
        ⟨[], [⟨1, "FAIL", ""⟩], ⟨0, "M f", ""⟩, ⟨0, "", ""⟩, ⟨0, "", ""⟩, "u", "T"⟩
        []).executedVerify = [["npm", "test"]].take (0 + 1) ∧
      (sandboxFastPR "p" "tk" "j" true
        ⟨[], [["npm", "test"]], false, "", none, none⟩
        ⟨[], [⟨1, "FAIL", ""⟩], ⟨0, "M f", ""⟩, ⟨0, "", ""⟩, ⟨0, "", ""⟩, "u", "T"⟩
        []).result =
        (sandboxFastPR "p" "tk" "j" false
          ⟨[], [["npm", "test"]], false, "", none, none⟩
          ⟨[], [⟨1, "FAIL", ""⟩], ⟨0, "M f", ""⟩, ⟨0, "", ""⟩, ⟨0, "", ""⟩, "u", "T"⟩
          []).result ∧
      (sandboxFastPR "p" "tk" "j" true
        ⟨[], [["npm", "test"]], false, "", none, none⟩
        ⟨[], [⟨1, "FAIL", ""⟩], ⟨0, "M f", ""⟩, ⟨0, "", ""⟩, ⟨0, "", ""⟩, "u", "T"⟩
        []).commitAttempted =
        (sandboxFastPR "p" "tk" "j" false
          ⟨[], [["npm", "test"]], false, "", none, none⟩
          ⟨[], [⟨1, "FAIL", ""⟩], ⟨0, "M f", ""⟩, ⟨0, "", ""⟩, ⟨0, "", ""⟩, "u", "T"⟩
          []).commitAttempted ∧
      (sandboxFastPR "p" "tk" "j" true
        ⟨[], [["npm", "test"]], false, "", none, none⟩
        ⟨[], [⟨1, "FAIL", ""⟩], ⟨0, "M f", ""⟩, ⟨0, "", ""⟩, ⟨0, "", ""⟩, "u", "T"⟩
        []).pushAttempted =
        (sandboxFastPR "p" "tk" "j" false
          ⟨[], [["npm", "test"]], false, "", none, none⟩
          ⟨[], [⟨1, "FAIL", ""⟩], ⟨0, "M f", ""⟩, ⟨0, "", ""⟩, ⟨0, "", ""⟩, "u", "T"⟩
          []).pushAttempted) :=
  ⟨⟨by simp, by decide, by decide, by decide⟩,
   C3_verification_advisory "p" "tk" "j"
     ⟨[], [["npm", "test"]], false, "", none, none⟩
     ⟨[], [⟨1, "FAIL", ""⟩], ⟨0, "M f", ""⟩, ⟨0, "", ""⟩, ⟨0, "", ""⟩, "u", "T"⟩
     [] 0 (by simp) (by simp) (by decide) (by decide) (by simp) (by decide)⟩

/-! ## Claim C8 -/

/-- C8: when every plan step is allowed and exits zero and every declared
verification command is allowed, a clean `git status --porcelain` (empty
after trimming) aborts the job with the no-changes error before any commit
or push is attempted. -/
theorem C8_clean_status_aborts_before_commit (pfx tk jid : String)
    (runTests : Bool) (plan : Plan) (env : ExecEnv) (store : Store)
    (hsallow : ∀ s ∈ plan.steps, commandAllowed s.cmd s.args = true)
    (hsok : ∀ j < plan.steps.length, (env.stepResults.getD j defaultRes).code = 0)
    (hvallow : ∀ v ∈ plan.verifyCommands, commandAllowed (v.headD "") v.tail = true)
    (hclean : jsTrim env.statusResult.out = "") :
    (sandboxFastPR pfx tk jid runTests plan env store).result = .error .noChanges ∧
    (sandboxFastPR pfx tk jid runTests plan env store).commitAttempted = false ∧
    (sandboxFastPR pfx tk jid runTests plan env store).pushAttempted = false := by
  have hsteps := runSteps_ok pfx tk jid env.now plan.steps env.stepResults store
    hsallow hsok
  have hverr := runVerify_err_none pfx tk jid env.now plan.verifyCommands
    env.verifyResults plan store hvallow
  simp only [sandboxFastPR, hsteps]
  by_cases hrt : (runTests && !plan.verifyCommands.isEmpty) = true
  · simp [hrt, hverr, hclean]
  · simp [hrt, hclean]

/-- Witness for C8: a successful one-step plan with a clean working tree
yields the no-changes error and no commit. -/
theorem C8_clean_status_aborts_before_commit_witness :
    ((∀ s ∈ [(⟨"git", ["status"]⟩ : Step)], commandAllowed s.cmd s.args = true) ∧
      (∀ v ∈ ([] : List (List String)), commandAllowed (v.headD "") v.tail = true) ∧
      jsTrim "  \n " = "") ∧
    ((sandboxFastPR "p" "tk" "j" false ⟨[⟨"git", ["status"]⟩], [], false, "", none, none⟩
        ⟨[⟨0, "", ""⟩], [], ⟨0, "  \n ", ""⟩, ⟨0, "", ""⟩, ⟨0, "", ""⟩, "u", "T"⟩
        []).result = .error .noChanges ∧
      (sandboxFastPR "p" "tk" "j" false ⟨[⟨"git", ["status"]⟩], [], false, "", none, none⟩
        ⟨[⟨0, "", ""⟩], [], ⟨0, "  \n ", ""⟩, ⟨0, "", ""⟩, ⟨0, "", ""⟩, "u", "T"⟩
        []).commitAttempted = false ∧
      (sandboxFastPR "p" "tk" "j" false ⟨[⟨"git", ["status"]⟩], [], false, "", none, none⟩
        ⟨[⟨0, "", ""⟩], [], ⟨0, "  \n ", ""⟩, ⟨0, "", ""⟩, ⟨0, "", ""⟩, "u", "T"⟩
        []).pushAttempted = false) :=
  ⟨⟨by decide, by simp, by decide⟩,
   C8_clean_status_aborts_before_commit "p" "tk" "j" false
     ⟨[⟨"git", ["status"]⟩], [], false, "", none, none⟩
     ⟨[⟨0, "", ""⟩], [], ⟨0, "  \n ", ""⟩, ⟨0, "", ""⟩, ⟨0, "", ""⟩, "u", "T"⟩
     [] (by decide) (by decide) (by simp) (by decide)⟩

/-! ## Claim C4 -/

theorem mem_of_listContainsSub {hay : List Char} {x : Char} {t : List Char}
    (h : listContainsSub hay (x :: t) = true) : x ∈ hay := by
  induction hay with
  | nil => simp [listContainsSub] at h
  | cons c rest ih =>
    rw [listContainsSub, Bool.or_eq_true] at h
    rcases h with hpre | hrec
    · simp only [List.isPrefixOf, Bool.and_eq_true, beq_iff_eq] at hpre
      exact hpre.1 ▸ List.mem_cons_self _ _
    · exact List.mem_cons_of_mem _ (ih hrec)

/-- C4 counterexample: the claim says the abort error carries a size-capped
TAIL of the captured output, but `safeLogChunk` keeps the FIRST 3500
characters.  For a failing step whose output is 3500 `a`s followed by 3501
`b`s, the last 3500 characters are all `b`, yet the error message contains
no `b` at all. -/
theorem C4_counterexample :
    (sandboxFastPR "p" "tk" "j" false
        ⟨[⟨"git", ["x"]⟩], [], false, "", none, none⟩
        ⟨[⟨1, ⟨List.replicate 3500 'a' ++ List.replicate 3501 'b'⟩, ""⟩], [],
         ⟨0, "M x", ""⟩, ⟨0, "", ""⟩, ⟨0, "", ""⟩, "u", "T"⟩
        []).result =
      .error (.execFailed "git" ["x"]
        ⟨1, ⟨List.replicate 3500 'a' ++ List.replicate 3501 'b'⟩, ""⟩) ∧
    (⟨(List.replicate 3500 'a' ++ List.replicate 3501 'b').drop
        ((List.replicate 3500 'a' ++ List.replicate 3501 'b').length - 3500)⟩ : String) =
      (⟨List.replicate 3500 'b'⟩ : String) ∧
    strContains
      (errMessage (.execFailed "git" ["x"]
        ⟨1, ⟨List.replicate 3500 'a' ++ List.replicate 3501 'b'⟩, ""⟩))
      ⟨List.replicate 3500 'b'⟩ = false := by
  refine ⟨?_, ?_, ?_⟩
  · have hf : ((([⟨1, ⟨List.replicate 3500 'a' ++ List.replicate 3501 'b'⟩, ""⟩] :
        List CmdResult)).headD defaultRes).code ≠ 0 := by
      show (1 : Int) ≠ 0
      norm_num
    have hs := runSteps_cons_fail "p" "tk" "j" "T" ⟨"git", ["x"]⟩ []
      [⟨1, ⟨List.replicate 3500 'a' ++ List.replicate 3501 'b'⟩, ""⟩] []
      (by decide) hf
    simp only [sandboxFastPR, hs]
    rfl
  · refine congrArg String.mk ?_
    have hlen : (List.replicate 3500 'a' ++ List.replicate 3501 'b').length - 3500 = 3501 := by
      rw [List.length_append, List.length_replicate, List.length_replicate]
    rw [hlen]
    rw [show (3501 : Nat) = 3500 + 1 from by norm_num]
    rw [← List.drop_drop]
    rw [List.drop_left' (by rw [List.length_replicate])]
    rw [List.replicate_succ]
    rfl
  · have hchunk : safeLogChunk
        (⟨List.replicate 3500 'a' ++ List.replicate 3501 'b'⟩ : String) =
        (⟨List.replicate 3500 'a'⟩ : String) ++ "\n…(truncated)…\n" := by
      unfold safeLogChunk
      rw [if_pos]
      · exact congrArg (· ++ "\n…(truncated)…\n")
          (congrArg String.mk (List.take_left' (by rw [List.length_replicate])))
      · show (List.replicate 3500 'a' ++ List.replicate 3501 'b').length > 3500
        rw [List.length_append, List.length_replicate, List.length_replicate]
        norm_num
    have hnotb : 'b' ∉ (errMessage (.execFailed "git" ["x"]
        ⟨1, ⟨List.replicate 3500 'a' ++ List.replicate 3501 'b'⟩, ""⟩)).data := by
      show 'b' ∉ (("Command failed: " ++ "git" ++ " " ++ joinSpace ["x"] ++ "\n") ++
        safeLogChunk (jsOr ""
          (⟨List.replicate 3500 'a' ++ List.replicate 3501 'b'⟩ : String))).data
      rw [show jsOr "" (⟨List.replicate 3500 'a' ++ List.replicate 3501 'b'⟩ : String) =
        (⟨List.replicate 3500 'a' ++ List.replicate 3501 'b'⟩ : String) from rfl]
      rw [hchunk]
      intro hmem
      rw [String.data_append, List.mem_append] at hmem
      rcases hmem with hmem | hmem
      · exact absurd hmem (by decide)
      · rw [String.data_append, List.mem_append] at hmem
        rcases hmem with hmem | hmem
        · exact absurd (List.eq_of_mem_replicate hmem) (by decide)
        · exact absurd hmem (by decide)
    by_contra h
    rw [Bool.not_eq_false] at h
    have h' : listContainsSub
        (errMessage (.execFailed "git" ["x"]
          ⟨1, ⟨List.replicate 3500 'a' ++ List.replicate 3501 'b'⟩, ""⟩)).data
        ('b' :: List.replicate 3499 'b') = true := h
    exact hnotb (mem_of_listContainsSub h')

/-- C4 amended: for a plan whose steps all pass validation, if step `i` is
the first whose execution exits non-zero, then no later step runs
(`executedSteps` is exactly the first `i+1` steps), the job aborts with an
error naming step `i`'s command, and the error message carries a size-capped
excerpt of the captured output — `safeLogChunk`, i.e. the FIRST 3500
characters (not a tail) plus a truncation marker when capped. -/
theorem C4_amended_stops_at_first_failing_step (pfx tk jid : String)
    (runTests : Bool) (plan : Plan) (env : ExecEnv) (store : Store) (i : Nat)
    (hallow : ∀ s ∈ plan.steps, commandAllowed s.cmd s.args = true)
    (hi : i < plan.steps.length)
    (hok : ∀ j < i, (env.stepResults.getD j defaultRes).code = 0)
    (hfail : (env.stepResults.getD i defaultRes).code ≠ 0) :
    (sandboxFastPR pfx tk jid runTests plan env store).executedSteps =
      plan.steps.take (i + 1) ∧
    (sandboxFastPR pfx tk jid runTests plan env store).result =
      .error (.execFailed (plan.steps.getD i ⟨"", []⟩).cmd
        (plan.steps.getD i ⟨"", []⟩).args (env.stepResults.getD i defaultRes)) ∧
    errMessage (.execFailed (plan.steps.getD i ⟨"", []⟩).cmd
        (plan.steps.getD i ⟨"", []⟩).args (env.stepResults.getD i defaultRes)) =
      "Command failed: " ++ (plan.steps.getD i ⟨"", []⟩).cmd ++ " " ++
        joinSpace (plan.steps.getD i ⟨"", []⟩).args ++ "\n" ++
        safeLogChunk (jsOr (env.stepResults.getD i defaultRes).err
          (env.stepResults.getD i defaultRes).out) := by
  obtain ⟨st, hs⟩ := runSteps_first_fail pfx tk jid env.now plan.steps
    env.stepResults store i hallow hi hok hfail
  refine ⟨?_, ?_, ?_⟩
  · simp [sandboxFastPR, hs]
  · simp [sandboxFastPR, hs]
  · simp [errMessage, String.append_assoc]

/-- Witness for the amended C4, on the spec's own example: a 3-step plan
whose second step fails — the third step never runs. -/
theorem C4_amended_stops_at_first_failing_step_witness :
    ((∀ s ∈ [(⟨"git", ["a"]⟩ : Step), ⟨"npm", ["install"]⟩, ⟨"node", ["x.js"]⟩],
        commandAllowed s.cmd s.args = true) ∧
      1 < [(⟨"git", ["a"]⟩ : Step), ⟨"npm", ["install"]⟩, ⟨"node", ["x.js"]⟩].length ∧
      (∀ j < 1, (([⟨0, "", ""⟩, ⟨2, "boom", ""⟩, ⟨0, "", ""⟩] :
        List CmdResult).getD j defaultRes).code = 0) ∧
      (([⟨0, "", ""⟩, ⟨2, "boom", ""⟩, ⟨0, "", ""⟩] :
        List CmdResult).getD 1 defaultRes).code ≠ 0) ∧
    ((sandboxFastPR "p" "tk" "j" false
        ⟨[⟨"git", ["a"]⟩, ⟨"npm", ["install"]⟩, ⟨"node", ["x.js"]⟩], [], false, "", none, none⟩
        ⟨[⟨0, "", ""⟩, ⟨2, "boom", ""⟩, ⟨0, "", ""⟩], [],
         ⟨0, "M f", ""⟩, ⟨0, "", ""⟩, ⟨0, "", ""⟩, "u", "T"⟩
        []).executedSteps =
      [(⟨"git", ["a"]⟩ : Step), ⟨"npm", ["install"]⟩, ⟨"node", ["x.js"]⟩].take (1 + 1) ∧
      (sandboxFastPR "p" "tk" "j" false
        ⟨[⟨"git", ["a"]⟩, ⟨"npm", ["install"]⟩, ⟨"node", ["x.js"]⟩], [], false, "", none, none⟩
        ⟨[⟨0, "", ""⟩, ⟨2, "boom", ""⟩, ⟨0, "", ""⟩], [],
         ⟨0, "M f", ""⟩, ⟨0, "", ""⟩, ⟨0, "", ""⟩, "u", "T"⟩
        []).result =
      .error (.execFailed
        ([(⟨"git", ["a"]⟩ : Step), ⟨"npm", ["install"]⟩, ⟨"node", ["x.js"]⟩].getD 1 ⟨"", []⟩).cmd
        ([(⟨"git", ["a"]⟩ : Step), ⟨"npm", ["install"]⟩, ⟨"node", ["x.js"]⟩].getD 1 ⟨"", []⟩).args
        (([⟨0, "", ""⟩, ⟨2, "boom", ""⟩, ⟨0, "", ""⟩] : List CmdResult).getD 1 defaultRes)) ∧
      errMessage (.execFailed
        ([(⟨"git", ["a"]⟩ : Step), ⟨"npm", ["install"]⟩, ⟨"node", ["x.js"]⟩].getD 1 ⟨"", []⟩).cmd
        ([(⟨"git", ["a"]⟩ : Step), ⟨"npm", ["install"]⟩, ⟨"node", ["x.js"]⟩].getD 1 ⟨"", []⟩).args
        (([⟨0, "", ""⟩, ⟨2, "boom", ""⟩, ⟨0, "", ""⟩] : List CmdResult).getD 1 defaultRes)) =
      "Command failed: " ++
        ([(⟨"git", ["a"]⟩ : Step), ⟨"npm", ["install"]⟩, ⟨"node", ["x.js"]⟩].getD 1 ⟨"", []⟩).cmd ++
        " " ++
        joinSpace ([(⟨"git", ["a"]⟩ : Step), ⟨"npm", ["install"]⟩, ⟨"node", ["x.js"]⟩].getD 1 ⟨"", []⟩).args ++
        "\n" ++
        safeLogChunk (jsOr
          (([⟨0, "", ""⟩, ⟨2, "boom", ""⟩, ⟨0, "", ""⟩] : List CmdResult).getD 1 defaultRes).err
          (([⟨0, "", ""⟩, ⟨2, "boom", ""⟩, ⟨0, "", ""⟩] : List CmdResult).getD 1 defaultRes).out)) :=
  ⟨⟨by decide, by decide, by decide, by decide⟩,
   C4_amended_stops_at_first_failing_step "p" "tk" "j" false
     ⟨[⟨"git", ["a"]⟩, ⟨"npm", ["install"]⟩, ⟨"node", ["x.js"]⟩], [], false, "", none, none⟩
     ⟨[⟨0, "", ""⟩, ⟨2, "boom", ""⟩, ⟨0, "", ""⟩], [],
      ⟨0, "M f", ""⟩, ⟨0, "", ""⟩, ⟨0, "", ""⟩, "u", "T"⟩
     [] 1 (by decide) (by decide) (by decide) (by decide)⟩

/-! ## Claim C9 -/

theorem objGet_recordThreadError (store : Store) (pfx tk now k : String)
    (patch : Obj) (v : JVal)
    (hk : objGet (("lastErrorAt", JVal.jstr now) :: patch) k = some v)
    (hu : k ≠ "updatedAt") (hv : k ≠ "version") :
    objGet ((loadThread (recordThreadError store pfx tk patch now) pfx tk).getD []) k =
      some v := by
  unfold recordThreadError
  rw [loadThread_saveThread]
  simp only [Option.getD_some]
  unfold saveMergeObj
  have hu' : ¬ ("updatedAt" = k) := fun h => hu h.symm
  have hv' : ¬ ("version" = k) := fun h => hv h.symm
  rw [objGet_append_none _ _ _ (by simp [objGet, hu', hv'])]
  exact objGet_append_some _ _ _ _ hk

/-- C9 counterexample: on a successful run the message/id/context/logs/snippet
slots are set to null, but the error timestamp `lastErrorAt` is NOT cleared —
the clearing write itself stamps it with the current time, a non-null value,
so the claim that the timestamp is cleared is false. -/
theorem C9_counterexample :
    (sandboxFastPR "p" "tk" "j" false (⟨[], [], false, "", none, none⟩ : Plan)
        (⟨[], [], ⟨0, "M f", ""⟩, ⟨0, "", ""⟩, ⟨0, "", ""⟩, "u",
          "2026-02-02T00:00:00.000Z"⟩ : ExecEnv)
        [(brainObjectPath "p" "threads" "tk",
          [("lastErrorAt", JVal.jstr "2020-01-01T00:00:00.000Z"),
           ("lastError", JVal.jstr "boom")])]).result = .ok "u" ∧
    objGet ((loadThread (sandboxFastPR "p" "tk" "j" false
        (⟨[], [], false, "", none, none⟩ : Plan)
        (⟨[], [], ⟨0, "M f", ""⟩, ⟨0, "", ""⟩, ⟨0, "", ""⟩, "u",
          "2026-02-02T00:00:00.000Z"⟩ : ExecEnv)
        [(brainObjectPath "p" "threads" "tk",
          [("lastErrorAt", JVal.jstr "2020-01-01T00:00:00.000Z"),
           ("lastError", JVal.jstr "boom")])]).store "p" "tk").getD [])
      "lastError" = some .jnull ∧
    objGet ((loadThread (sandboxFastPR "p" "tk" "j" false
        (⟨[], [], false, "", none, none⟩ : Plan)
        (⟨[], [], ⟨0, "M f", ""⟩, ⟨0, "", ""⟩, ⟨0, "", ""⟩, "u",
          "2026-02-02T00:00:00.000Z"⟩ : ExecEnv)
        [(brainObjectPath "p" "threads" "tk",
          [("lastErrorAt", JVal.jstr "2020-01-01T00:00:00.000Z"),
           ("lastError", JVal.jstr "boom")])]).store "p" "tk").getD [])
      "lastErrorAt" = some (.jstr "2026-02-02T00:00:00.000Z") ∧
    some (JVal.jstr "2026-02-02T00:00:00.000Z") ≠ some JVal.jnull ∧
    (some (JVal.jstr "2026-02-02T00:00:00.000Z") : Option JVal) ≠ none :=
  ⟨rfl, rfl, rfl, by simp, by simp⟩

/-- C9 amended: on successful change-request creation the thread's error
message, job id, context tag, captured logs and raw-model-snippet slots are
all set to null (so a subsequent read reports no recorded error), while the
error timestamp `lastErrorAt` is overwritten with the time of the clearing
write rather than cleared. -/
theorem C9_amended_success_clears_error_fields (pfx tk jid : String)
    (runTests : Bool) (plan : Plan) (env : ExecEnv) (store : Store)
    (hsallow : ∀ s ∈ plan.steps, commandAllowed s.cmd s.args = true)
    (hsok : ∀ j < plan.steps.length, (env.stepResults.getD j defaultRes).code = 0)
    (hvallow : ∀ v ∈ plan.verifyCommands, commandAllowed (v.headD "") v.tail = true)
    (hstatus : jsTrim env.statusResult.out ≠ "")
    (hcommit : env.commitResult.code = 0)
    (hpush : env.pushResult.code = 0) :
    (sandboxFastPR pfx tk jid runTests plan env store).result = .ok env.prUrl ∧
    objGet ((loadThread (sandboxFastPR pfx tk jid runTests plan env store).store pfx tk).getD [])
      "lastError" = some .jnull ∧
    objGet ((loadThread (sandboxFastPR pfx tk jid runTests plan env store).store pfx tk).getD [])
      "lastErrorJobId" = some .jnull ∧
    objGet ((loadThread (sandboxFastPR pfx tk jid runTests plan env store).store pfx tk).getD [])
      "lastErrorContext" = some .jnull ∧
    objGet ((loadThread (sandboxFastPR pfx tk jid runTests plan env store).store pfx tk).getD [])
      "lastErrorLogs" = some .jnull ∧
    objGet ((loadThread (sandboxFastPR pfx tk jid runTests plan env store).store pfx tk).getD [])
      "lastClaudeRawSnippet" = some .jnull ∧
    objGet ((loadThread (sandboxFastPR pfx tk jid runTests plan env store).store pfx tk).getD [])
      "lastErrorAt" = some (.jstr env.now) := by
  have hsteps := runSteps_ok pfx tk jid env.now plan.steps env.stepResults store
    hsallow hsok
  have hverr := runVerify_err_none pfx tk jid env.now plan.verifyCommands
    env.verifyResults plan store hvallow
  have hres : (sandboxFastPR pfx tk jid runTests plan env store).result = .ok env.prUrl := by
    simp only [sandboxFastPR, hsteps]
    by_cases hrt : (runTests && !plan.verifyCommands.isEmpty) = true
    · simp [hrt, hverr, hstatus, hcommit, hpush]
    · simp [hrt, hstatus, hcommit, hpush]
  have hstore : ∃ st1, (sandboxFastPR pfx tk jid runTests plan env store).store =
      recordThreadError st1 pfx tk
        [("lastError", .jnull), ("lastErrorJobId", .jnull), ("lastErrorContext", .jnull),
         ("lastErrorLogs", .jnull), ("lastClaudeRawSnippet", .jnull)] env.now := by
    simp only [sandboxFastPR, hsteps]
    by_cases hrt : (runTests && !plan.verifyCommands.isEmpty) = true
    · refine ⟨(runVerify pfx tk jid env.now plan.verifyCommands env.verifyResults
        plan store).2.2.1, ?_⟩
      simp [hrt, hverr, hstatus, hcommit, hpush]
    · refine ⟨store, ?_⟩
      simp [hrt, hstatus, hcommit, hpush]
  obtain ⟨st1, hst⟩ := hstore
  refine ⟨hres, ?_, ?_, ?_, ?_, ?_, ?_⟩ <;> rw [hst] <;>
    exact objGet_recordThreadError _ _ _ _ _ _ _ rfl (by decide) (by decide)

/-- Witness for the amended C9 on a concrete successful run. -/
theorem C9_amended_success_clears_error_fields_witness :
    ((∀ s ∈ ([] : List Step), commandAllowed s.cmd s.args = true) ∧
      (∀ v ∈ ([] : List (List String)), commandAllowed (v.headD "") v.tail = true) ∧
      jsTrim "M f" ≠ "" ∧ (0 : Int) = 0) ∧
    ((sandboxFastPR "q" "tq" "jq" false (⟨[], [], false, "", none, none⟩ : Plan)
        (⟨[], [], ⟨0, "M f", ""⟩, ⟨0, "", ""⟩, ⟨0, "", ""⟩, "url2",
          "2026-03-03T00:00:00.000Z"⟩ : ExecEnv) []).result = .ok "url2" ∧
      objGet ((loadThread (sandboxFastPR "q" "tq" "jq" false
          (⟨[], [], false, "", none, none⟩ : Plan)
          (⟨[], [], ⟨0, "M f", ""⟩, ⟨0, "", ""⟩, ⟨0, "", ""⟩, "url2",
            "2026-03-03T00:00:00.000Z"⟩ : ExecEnv) []).store "q" "tq").getD [])
        "lastError" = some .jnull ∧
      objGet ((loadThread (sandboxFastPR "q" "tq" "jq" false
          (⟨[], [], false, "", none, none⟩ : Plan)
          (⟨[], [], ⟨0, "M f", ""⟩, ⟨0, "", ""⟩, ⟨0, "", ""⟩, "url2",
            "2026-03-03T00:00:00.000Z"⟩ : ExecEnv) []).store "q" "tq").getD [])
        "lastErrorJobId" = some .jnull ∧
      objGet ((loadThread (sandboxFastPR "q" "tq" "jq" false
          (⟨[], [], false, "", none, none⟩ : Plan)
          (⟨[], [], ⟨0, "M f", ""⟩, ⟨0, "", ""⟩, ⟨0, "", ""⟩, "url2",
            "2026-03-03T00:00:00.000Z"⟩ : ExecEnv) []).store "q" "tq").getD [])
        "lastErrorContext" = some .jnull ∧
      objGet ((loadThread (sandboxFastPR "q" "tq" "jq" false
          (⟨[], [], false, "", none, none⟩ : Plan)
          (⟨[], [], ⟨0, "M f", ""⟩, ⟨0, "", ""⟩, ⟨0, "", ""⟩, "url2",
            "2026-03-03T00:00:00.000Z"⟩ : ExecEnv) []).store "q" "tq").getD [])
        "lastErrorLogs" = some .jnull ∧
      objGet ((loadThread (sandboxFastPR "q" "tq" "jq" false
          (⟨[], [], false, "", none, none⟩ : Plan)
          (⟨[], [], ⟨0, "M f", ""⟩, ⟨0, "", ""⟩, ⟨0, "", ""⟩, "url2",
            "2026-03-03T00:00:00.000Z"⟩ : ExecEnv) []).store "q" "tq").getD [])
        "lastClaudeRawSnippet" = some .jnull ∧
      objGet ((loadThread (sandboxFastPR "q" "tq" "jq" false
          (⟨[], [], false, "", none, none⟩ : Plan)
          (⟨[], [], ⟨0, "M f", ""⟩, ⟨0, "", ""⟩, ⟨0, "", ""⟩, "url2",
            "2026-03-03T00:00:00.000Z"⟩ : ExecEnv) []).store "q" "tq").getD [])
        "lastErrorAt" = some (.jstr "2026-03-03T00:00:00.000Z")) :=
  ⟨⟨by simp, by simp, by decide, rfl⟩,
   C9_amended_success_clears_error_fields "q" "tq" "jq" false
     ⟨[], [], false, "", none, none⟩
     ⟨[], [], ⟨0, "M f", ""⟩, ⟨0, "", ""⟩, ⟨0, "", ""⟩, "url2",
       "2026-03-03T00:00:00.000Z"⟩ []
     (by simp) (by simp) (by simp) (by decide) rfl rfl⟩

/-! ## Claim C6 -/

/-- C6 counterexample: when both the first parse and the repair parse fail,
the raised error's message embeds a truncated snippet of the FIRST request's
output, not the repair request's output as the claim states: it contains the
first raw text and does not contain the repair raw text. -/
theorem C6_counterexample :
    (claudeSandboxPlan "p" "tk" "j" "T" "first pass raw output AAAA"
        "repair pass raw output BBBB" []).1 =
      .error ⟨planParseFailMessage "first pass raw output AAAA"⟩ ∧
    planParseFailMessage "first pass raw output AAAA" =
      "Claude plan JSON parse failed. Got: first pass raw output AAAA" ∧
    strContains (planParseFailMessage "first pass raw output AAAA")
      (clampString "repair pass raw output BBBB" 220) = false ∧
    strContains (planParseFailMessage "first pass raw output AAAA")
      (clampString "first pass raw output AAAA" 220) = true :=
  ⟨rfl, by decide, by decide, by decide⟩

/-- C6 amended: when both the first parse attempt and the single repair
request fail to yield a valid plan, `claudeSandboxPlan` raises a plan-parse
error whose message carries a 220-character snippet of the FIRST request's
raw output; the repair request's output is not in the raised error but is
recorded to the thread's error slot as a 1800-character
`lastClaudeRawSnippet`. -/
theorem C6_amended_error_carries_first_raw (pfx tk jid now raw raw2 : String)
    (store : Store)
    (h1 : parsePlanJson (extractJsonFromText raw) = none)
    (h2 : parsePlanJson (extractJsonFromText raw2) = none) :
    (claudeSandboxPlan pfx tk jid now raw raw2 store).1 =
      .error ⟨planParseFailMessage raw⟩ ∧
    planParseFailMessage raw =
      "Claude plan JSON parse failed. Got: " ++ clampString raw 220 ∧
    objGet ((loadThread (claudeSandboxPlan pfx tk jid now raw raw2 store).2 pfx tk).getD [])
      "lastClaudeRawSnippet" = some (.jstr (clampString raw2 1800)) := by
  have hmain : claudeSandboxPlan pfx tk jid now raw raw2 store =
      (.error ⟨planParseFailMessage raw⟩,
       recordThreadError
         (recordThreadError store pfx tk
           [("lastError", .jstr "Claude plan returned invalid JSON (first pass)."),
            ("lastErrorJobId", .jstr jid),
            ("lastErrorContext", .jstr "planning:parse:first_pass"),
            ("lastClaudeRawSnippet", .jstr (clampString raw 1800))] now)
         pfx tk
         [("lastError", .jstr "Claude plan returned invalid JSON (repair pass)."),
          ("lastErrorJobId", .jstr jid),
          ("lastErrorContext", .jstr "planning:parse:repair_pass"),
          ("lastClaudeRawSnippet", .jstr (clampString raw2 1800))] now) := by
    simp only [claudeSandboxPlan, h1, h2]
  rw [hmain]
  exact ⟨rfl, rfl, objGet_recordThreadError _ _ _ _ _ _ _ rfl (by decide) (by decide)⟩

/-- Witness for the amended C6 on concrete unparseable outputs. -/
theorem C6_amended_error_carries_first_raw_witness :
    (parsePlanJson (extractJsonFromText "unparseable first output XX") = none ∧
      parsePlanJson (extractJsonFromText "unparseable repair output YY") = none) ∧
    ((claudeSandboxPlan "p" "tk" "j" "T" "unparseable first output XX"
        "unparseable repair output YY" []).1 =
      .error ⟨planParseFailMessage "unparseable first output XX"⟩ ∧
      planParseFailMessage "unparseable first output XX" =
        "Claude plan JSON parse failed. Got: " ++
          clampString "unparseable first output XX" 220 ∧
      objGet ((loadThread (claudeSandboxPlan "p" "tk" "j" "T"
          "unparseable first output XX" "unparseable repair output YY" []).2
          "p" "tk").getD [])
        "lastClaudeRawSnippet" =
        some (.jstr (clampString "unparseable repair output YY" 1800))) :=
  ⟨⟨rfl, rfl⟩,
   C6_amended_error_carries_first_raw "p" "tk" "j" "T" "unparseable first output XX"
     "unparseable repair output YY" [] rfl rfl⟩

/-! ## Claim C5: support lemmas -/

theorem plainChar_spec {c : Char} (h : plainChar c = true) :
    ¬ c = '"' ∧ ¬ c = '\\' ∧ ¬ c = '{' ∧ ¬ c = '}' ∧ ¬ c = '`' ∧
      jsWs c = false ∧ ¬ c.toNat < 32 := by
  simp only [plainChar, Bool.and_eq_true, Bool.not_eq_true', Bool.or_eq_false_iff,
    decide_eq_true_eq] at h
  refine ⟨?_, ?_, ?_, ?_, ?_, h.1.2, by omega⟩
  · intro he; subst he; simp at h
  · intro he; subst he; simp at h
  · intro he; subst he; simp at h
  · intro he; subst he; simp at h
  · intro he; subst he; simp at h

theorem parseStringBody_closed (s r : List Char)
    (hs : ∀ c ∈ s, plainChar c = true) :
    parseStringBody (s ++ '"' :: r) = some (s, r) := by
  induction s with
  | nil =>
    rw [List.nil_append, parseStringBody.eq_def]
    simp
  | cons c t ih =>
    obtain ⟨h1, h2, _, _, _, _, h7⟩ := plainChar_spec (hs c (List.mem_cons_self _ _))
    rw [List.cons_append, parseStringBody.eq_def]
    simp only [h1, h2, h7, if_false, ite_false]
    rw [ih (fun u hu => hs u (List.mem_cons_of_mem _ hu))]
    rfl

theorem parseStringBody_open (s : List Char)
    (hs : ∀ c ∈ s, plainChar c = true) :
    parseStringBody s = none := by
  induction s with
  | nil => rfl
  | cons c t ih =>
    obtain ⟨h1, h2, _, _, _, _, h7⟩ := plainChar_spec (hs c (List.mem_cons_self _ _))
    rw [parseStringBody.eq_def]
    simp only [h1, h2, h7, if_false, ite_false]
    rw [ih (fun u hu => hs u (List.mem_cons_of_mem _ hu))]
    rfl

theorem dropWhile_eq_self_of_all {l : List Char} {p : Char → Bool}
    (h : ∀ c ∈ l, p c = false) : l.dropWhile p = l := by
  cases l with
  | nil => rfl
  | cons c t => simp [List.dropWhile, h c (List.mem_cons_self _ _)]

theorem jsTrimList_eq_self {l : List Char} (h : ∀ c ∈ l, jsWs c = false) :
    jsTrimList l = l := by
  unfold jsTrimList
  rw [dropWhile_eq_self_of_all h,
    dropWhile_eq_self_of_all (fun c hc => h c (List.mem_reverse.mp hc))]
  exact List.reverse_reverse l

theorem findSubIdx_none {l : List Char} {p0 : Char} {pr : List Char}
    (h : p0 ∉ l) : findSubIdx l (p0 :: pr) = none := by
  induction l with
  | nil => simp [findSubIdx]
  | cons c t ih =>
    have hne : ¬ (p0 = c) := fun he => h (he ▸ List.mem_cons_self _ _)
    rw [findSubIdx]
    simp [List.isPrefixOf, hne, ih (fun hm => h (List.mem_cons_of_mem _ hm))]

/-! ## Claim C5: document-level lemmas and results -/


theorem parseMembers_prBody_trunc (g : Nat) (b : List Char)
    (hb : ∀ c ∈ b, plainChar c = true) :
    parseMembers (g + 2)
      ('"' :: 'p' :: 'r' :: 'B' :: 'o' :: 'd' :: 'y' :: '"' :: ':' :: '"' :: b) = none := by
  have hkey : parseStringBody ('p' :: 'r' :: 'B' :: 'o' :: 'd' :: 'y' :: '"' :: ':' :: '"' :: b) =
      some (['p', 'r', 'B', 'o', 'd', 'y'], ':' :: '"' :: b) :=
    parseStringBody_closed ['p', 'r', 'B', 'o', 'd', 'y'] (':' :: '"' :: b) (by decide)
  have hval : parseVal (g + 1) ('"' :: b) = none := by
    simp [parseVal, skipWs, jsWs, parseStringBody_open b hb]
  simp [parseMembers, skipWs, jsWs, hkey, hval]

theorem parseMembers_prBody_full (g : Nat) (b : List Char)
    (hb : ∀ c ∈ b, plainChar c = true) :
    parseMembers (g + 2)
      ('"' :: 'p' :: 'r' :: 'B' :: 'o' :: 'd' :: 'y' :: '"' :: ':' :: '"' ::
        (b ++ ['"', '}'])) =
      some ([("prBody", JVal.jstr ⟨b⟩)], []) := by
  have hkey : parseStringBody ('p' :: 'r' :: 'B' :: 'o' :: 'd' :: 'y' :: '"' :: ':' :: '"' ::
      (b ++ ['"', '}'])) =
      some (['p', 'r', 'B', 'o', 'd', 'y'], ':' :: '"' :: (b ++ ['"', '}'])) :=
    parseStringBody_closed ['p', 'r', 'B', 'o', 'd', 'y'] (':' :: '"' :: (b ++ ['"', '}'])) (by decide)
  have hval : parseVal (g + 1) ('"' :: (b ++ ['"', '}'])) = some (.jstr ⟨b⟩, ['}']) := by
    have hb2 : parseStringBody (b ++ '"' :: ['}']) = some (b, ['}']) :=
      parseStringBody_closed b ['}'] hb
    simp [parseVal, skipWs, jsWs, hb2]
  simp [parseMembers, skipWs, jsWs, hkey, hval]

theorem parseMembers_steps (g : Nat) (tail : List Char) :
    parseMembers (g + 3)
      ('"' :: 's' :: 't' :: 'e' :: 'p' :: 's' :: '"' :: ':' :: '[' :: ']' :: ',' :: tail) =
      (parseMembers (g + 2) tail).map (fun q => (("steps", JVal.jarr []) :: q.1, q.2)) := by
  have hkey : parseStringBody ('s' :: 't' :: 'e' :: 'p' :: 's' :: '"' :: ':' :: '[' :: ']' :: ',' :: tail) =
      some (['s', 't', 'e', 'p', 's'], ':' :: '[' :: ']' :: ',' :: tail) :=
    parseStringBody_closed ['s', 't', 'e', 'p', 's'] (':' :: '[' :: ']' :: ',' :: tail) (by decide)
  have hval : parseVal (g + 2) ('[' :: ']' :: ',' :: tail) = some (.jarr [], ',' :: tail) := by
    simp [parseVal, skipWs, jsWs]
  simp [parseMembers, skipWs, jsWs, hkey, hval]

theorem parseMembers_prTitle (g : Nat) (a tail : List Char)
    (ha : ∀ c ∈ a, plainChar c = true) :
    parseMembers (g + 4)
      ('"' :: 'p' :: 'r' :: 'T' :: 'i' :: 't' :: 'l' :: 'e' :: '"' :: ':' :: '"' ::
        (a ++ '"' :: ',' :: tail)) =
      (parseMembers (g + 3) tail).map (fun q => (("prTitle", JVal.jstr ⟨a⟩) :: q.1, q.2)) := by
  have hkey : parseStringBody ('p' :: 'r' :: 'T' :: 'i' :: 't' :: 'l' :: 'e' :: '"' :: ':' :: '"' ::
      (a ++ '"' :: ',' :: tail)) =
      some (['p', 'r', 'T', 'i', 't', 'l', 'e'], ':' :: '"' :: (a ++ '"' :: ',' :: tail)) :=
    parseStringBody_closed ['p', 'r', 'T', 'i', 't', 'l', 'e']
      (':' :: '"' :: (a ++ '"' :: ',' :: tail)) (by decide)
  have hval : parseVal (g + 3) ('"' :: (a ++ '"' :: ',' :: tail)) =
      some (.jstr ⟨a⟩, ',' :: tail) := by
    simp [parseVal, skipWs, jsWs, parseStringBody_closed a (',' :: tail) ha]
  simp [parseMembers, skipWs, jsWs, hkey, hval]


theorem parseVal_planDoc_trunc (g : Nat) (a b : List Char)
    (ha : ∀ c ∈ a, plainChar c = true) (hb : ∀ c ∈ b, plainChar c = true) :
    parseVal (g + 5)
      ('{' :: '"' :: 'p' :: 'r' :: 'T' :: 'i' :: 't' :: 'l' :: 'e' :: '"' :: ':' :: '"' ::
        (a ++ '"' :: ',' ::
          '"' :: 's' :: 't' :: 'e' :: 'p' :: 's' :: '"' :: ':' :: '[' :: ']' :: ',' ::
          '"' :: 'p' :: 'r' :: 'B' :: 'o' :: 'd' :: 'y' :: '"' :: ':' :: '"' :: b)) = none := by
  have h1 := parseMembers_prBody_trunc g b hb
  have h2 := parseMembers_steps g
    ('"' :: 'p' :: 'r' :: 'B' :: 'o' :: 'd' :: 'y' :: '"' :: ':' :: '"' :: b)
  have h3 := parseMembers_prTitle g a
    ('"' :: 's' :: 't' :: 'e' :: 'p' :: 's' :: '"' :: ':' :: '[' :: ']' :: ',' ::
      '"' :: 'p' :: 'r' :: 'B' :: 'o' :: 'd' :: 'y' :: '"' :: ':' :: '"' :: b) ha
  simp [parseVal, skipWs, jsWs, h3, h2, h1]

theorem parseVal_planDoc_full (g : Nat) (a b : List Char)
    (ha : ∀ c ∈ a, plainChar c = true) (hb : ∀ c ∈ b, plainChar c = true) :
    parseVal (g + 5)
      ('{' :: '"' :: 'p' :: 'r' :: 'T' :: 'i' :: 't' :: 'l' :: 'e' :: '"' :: ':' :: '"' ::
        (a ++ '"' :: ',' ::
          '"' :: 's' :: 't' :: 'e' :: 'p' :: 's' :: '"' :: ':' :: '[' :: ']' :: ',' ::
          '"' :: 'p' :: 'r' :: 'B' :: 'o' :: 'd' :: 'y' :: '"' :: ':' :: '"' ::
          (b ++ ['"', '}']))) =
      some (.jobj [("prTitle", .jstr ⟨a⟩), ("steps", .jarr []), ("prBody", .jstr ⟨b⟩)], []) := by
  have h1 := parseMembers_prBody_full g b hb
  have h2 := parseMembers_steps g
    ('"' :: 'p' :: 'r' :: 'B' :: 'o' :: 'd' :: 'y' :: '"' :: ':' :: '"' :: (b ++ ['"', '}']))
  have h3 := parseMembers_prTitle g a
    ('"' :: 's' :: 't' :: 'e' :: 'p' :: 's' :: '"' :: ':' :: '[' :: ']' :: ',' ::
      '"' :: 'p' :: 'r' :: 'B' :: 'o' :: 'd' :: 'y' :: '"' :: ':' :: '"' :: (b ++ ['"', '}'])) ha
  simp [parseVal, skipWs, jsWs, h3, h2, h1]


theorem planDocTrunc_data (a b : String) :
    ("\x7b\"prTitle\":\"" ++ a ++ "\",\"steps\":[],\"prBody\":\"" ++ b).data =
      '{' :: '"' :: 'p' :: 'r' :: 'T' :: 'i' :: 't' :: 'l' :: 'e' :: '"' :: ':' :: '"' ::
        (a.data ++ '"' :: ',' ::
          '"' :: 's' :: 't' :: 'e' :: 'p' :: 's' :: '"' :: ':' :: '[' :: ']' :: ',' ::
          '"' :: 'p' :: 'r' :: 'B' :: 'o' :: 'd' :: 'y' :: '"' :: ':' :: '"' :: b.data) := by
  have h1 : ("\x7b\"prTitle\":\"" : String).data =
      '{' :: '"' :: 'p' :: 'r' :: 'T' :: 'i' :: 't' :: 'l' :: 'e' :: '"' :: ':' :: '"' :: [] := rfl
  have h2 : ("\",\"steps\":[],\"prBody\":\"" : String).data =
      '"' :: ',' :: '"' :: 's' :: 't' :: 'e' :: 'p' :: 's' :: '"' :: ':' :: '[' :: ']' :: ',' ::
      '"' :: 'p' :: 'r' :: 'B' :: 'o' :: 'd' :: 'y' :: '"' :: ':' :: '"' :: [] := rfl
  simp [String.data_append, h1, h2, List.append_assoc]

theorem jsonParseText_planDoc_trunc (a b : String)
    (ha : ∀ c ∈ a.data, plainChar c = true) (hb : ∀ c ∈ b.data, plainChar c = true) :
    jsonParseText ("\x7b\"prTitle\":\"" ++ a ++ "\",\"steps\":[],\"prBody\":\"" ++ b) = none := by
  unfold jsonParseText
  rw [planDocTrunc_data]
  obtain ⟨g, hg⟩ : ∃ g,
      2 * ('{' :: '"' :: 'p' :: 'r' :: 'T' :: 'i' :: 't' :: 'l' :: 'e' :: '"' :: ':' :: '"' ::
        (a.data ++ '"' :: ',' ::
          '"' :: 's' :: 't' :: 'e' :: 'p' :: 's' :: '"' :: ':' :: '[' :: ']' :: ',' ::
          '"' :: 'p' :: 'r' :: 'B' :: 'o' :: 'd' :: 'y' :: '"' :: ':' :: '"' :: b.data)).length
        + 2 = g + 5 := by
    refine ⟨2 * ('{' :: '"' :: 'p' :: 'r' :: 'T' :: 'i' :: 't' :: 'l' :: 'e' :: '"' :: ':' :: '"' ::
        (a.data ++ '"' :: ',' ::
          '"' :: 's' :: 't' :: 'e' :: 'p' :: 's' :: '"' :: ':' :: '[' :: ']' :: ',' ::
          '"' :: 'p' :: 'r' :: 'B' :: 'o' :: 'd' :: 'y' :: '"' :: ':' :: '"' :: b.data)).length - 3, ?_⟩
    simp [List.length_cons]
    omega
  rw [hg, parseVal_planDoc_trunc g a.data b.data ha hb]

theorem planDocFull_data (a b : String) :
    ("\x7b\"prTitle\":\"" ++ a ++ "\",\"steps\":[],\"prBody\":\"" ++ b ++ "\"\x7d").data =
      '{' :: '"' :: 'p' :: 'r' :: 'T' :: 'i' :: 't' :: 'l' :: 'e' :: '"' :: ':' :: '"' ::
        (a.data ++ '"' :: ',' ::
          '"' :: 's' :: 't' :: 'e' :: 'p' :: 's' :: '"' :: ':' :: '[' :: ']' :: ',' ::
          '"' :: 'p' :: 'r' :: 'B' :: 'o' :: 'd' :: 'y' :: '"' :: ':' :: '"' ::
          (b.data ++ ['"', '}'])) := by
  have h1 : ("\x7b\"prTitle\":\"" : String).data =
      '{' :: '"' :: 'p' :: 'r' :: 'T' :: 'i' :: 't' :: 'l' :: 'e' :: '"' :: ':' :: '"' :: [] := rfl
  have h2 : ("\",\"steps\":[],\"prBody\":\"" : String).data =
      '"' :: ',' :: '"' :: 's' :: 't' :: 'e' :: 'p' :: 's' :: '"' :: ':' :: '[' :: ']' :: ',' ::
      '"' :: 'p' :: 'r' :: 'B' :: 'o' :: 'd' :: 'y' :: '"' :: ':' :: '"' :: [] := rfl
  have h3 : ("\"\x7d" : String).data = '"' :: '}' :: [] := rfl
  simp [String.data_append, h1, h2, h3, List.append_assoc]

theorem jsonParseText_planDoc_full (a b : String)
    (ha : ∀ c ∈ a.data, plainChar c = true) (hb : ∀ c ∈ b.data, plainChar c = true) :
    jsonParseText ("\x7b\"prTitle\":\"" ++ a ++ "\",\"steps\":[],\"prBody\":\"" ++ b ++ "\"\x7d") =
      some (.jobj [("prTitle", .jstr a), ("steps", .jarr []), ("prBody", .jstr b)]) := by
  unfold jsonParseText
  rw [planDocFull_data]
  obtain ⟨g, hg⟩ : ∃ g,
      2 * ('{' :: '"' :: 'p' :: 'r' :: 'T' :: 'i' :: 't' :: 'l' :: 'e' :: '"' :: ':' :: '"' ::
        (a.data ++ '"' :: ',' ::
          '"' :: 's' :: 't' :: 'e' :: 'p' :: 's' :: '"' :: ':' :: '[' :: ']' :: ',' ::
          '"' :: 'p' :: 'r' :: 'B' :: 'o' :: 'd' :: 'y' :: '"' :: ':' :: '"' ::
          (b.data ++ ['"', '}']))).length + 2 = g + 5 := by
    refine ⟨2 * ('{' :: '"' :: 'p' :: 'r' :: 'T' :: 'i' :: 't' :: 'l' :: 'e' :: '"' :: ':' :: '"' ::
        (a.data ++ '"' :: ',' ::
          '"' :: 's' :: 't' :: 'e' :: 'p' :: 's' :: '"' :: ':' :: '[' :: ']' :: ',' ::
          '"' :: 'p' :: 'r' :: 'B' :: 'o' :: 'd' :: 'y' :: '"' :: ':' :: '"' ::
          (b.data ++ ['"', '}']))).length - 3, ?_⟩
    simp [List.length_cons]
    omega
  rw [hg, parseVal_planDoc_full g a.data b.data ha hb]
  simp [skipWs]


theorem findIdx?_none_of_all {l : List Char} {p : Char → Bool}
    (h : ∀ c ∈ l, p c = false) : l.findIdx? p = none := by
  induction l with
  | nil => rfl
  | cons c t ih =>
    rw [List.findIdx?_cons]
    simp [h c (List.mem_cons_self _ _), ih (fun u hu => h u (List.mem_cons_of_mem _ hu))]

/-- Extraction is the identity on brace-opened, fence-free, whitespace-free
text with no closing brace. -/
theorem extractJson_id_of (r : List Char)
    (hws : ∀ c ∈ '{' :: r, jsWs c = false) (hnb : '`' ∉ '{' :: r)
    (hnr : '}' ∉ ('{' :: r)) :
    extractJsonFromText ⟨'{' :: r⟩ = ⟨'{' :: r⟩ := by
  have hfs : findSubIdx ('{' :: r) ['`', '`', '`'] = none := findSubIdx_none hnb
  have hrev2 : ∀ c ∈ r.reverse, (decide (c = '}')) = false := by
    intro c hc
    simp only [decide_eq_false_iff_not]
    intro he
    exact hnr (he ▸ List.mem_cons_of_mem _ (List.mem_reverse.mp hc))
  simp only [extractJsonFromText]
  simp only [jsTrimList_eq_self hws]
  simp [hfs, findIdx?_none_of_all hrev2, List.findIdx?_cons, jsTrimList_eq_self hws]


theorem jsTrim_id_of (t : String) (hws : ∀ c ∈ t.data, jsWs c = false) :
    jsTrim t = t := by
  unfold jsTrim
  rw [jsTrimList_eq_self hws]

theorem planDoc_chars (a b : String)
    (ha : ∀ c ∈ a.data, plainChar c = true) (hb : ∀ c ∈ b.data, plainChar c = true) :
    ∀ c ∈ ("\x7b\"prTitle\":\"" ++ a ++ "\",\"steps\":[],\"prBody\":\"" ++ b).data,
      jsWs c = false ∧ ¬ c = '`' ∧ ¬ c = '}' := by
  intro c hc
  rw [String.data_append, String.data_append, String.data_append] at hc
  have hlit1 : ∀ c ∈ ("\x7b\"prTitle\":\"" : String).data,
      jsWs c = false ∧ ¬ c = '`' ∧ ¬ c = '}' := by decide
  have hlit2 : ∀ c ∈ ("\",\"steps\":[],\"prBody\":\"" : String).data,
      jsWs c = false ∧ ¬ c = '`' ∧ ¬ c = '}' := by decide
  rcases List.mem_append.mp hc with hc1 | hcb
  · rcases List.mem_append.mp hc1 with hc2 | hcm
    · rcases List.mem_append.mp hc2 with hch | hca
      · exact hlit1 c hch
      · obtain ⟨_, _, _, h4, h5, h6, _⟩ := plainChar_spec (ha c hca)
        exact ⟨h6, h5, h4⟩
    · exact hlit2 c hcm
  · obtain ⟨_, _, _, h4, h5, h6, _⟩ := plainChar_spec (hb c hcb)
    exact ⟨h6, h5, h4⟩

theorem extractJson_planDoc_trunc (a b : String)
    (ha : ∀ c ∈ a.data, plainChar c = true) (hb : ∀ c ∈ b.data, plainChar c = true) :
    extractJsonFromText ("\x7b\"prTitle\":\"" ++ a ++ "\",\"steps\":[],\"prBody\":\"" ++ b) =
      "\x7b\"prTitle\":\"" ++ a ++ "\",\"steps\":[],\"prBody\":\"" ++ b := by
  have hall := planDoc_chars a b ha hb
  have hd := planDocTrunc_data a b
  have hws : ∀ c ∈ '{' :: '"' :: 'p' :: 'r' :: 'T' :: 'i' :: 't' :: 'l' :: 'e' :: '"' :: ':' :: '"' ::
      (a.data ++ '"' :: ',' ::
        '"' :: 's' :: 't' :: 'e' :: 'p' :: 's' :: '"' :: ':' :: '[' :: ']' :: ',' ::
        '"' :: 'p' :: 'r' :: 'B' :: 'o' :: 'd' :: 'y' :: '"' :: ':' :: '"' :: b.data),
      jsWs c = false := by
    intro c hc
    exact (hall c (by rw [hd]; exact hc)).1
  have hnb : '`' ∉ '{' :: '"' :: 'p' :: 'r' :: 'T' :: 'i' :: 't' :: 'l' :: 'e' :: '"' :: ':' :: '"' ::
      (a.data ++ '"' :: ',' ::
        '"' :: 's' :: 't' :: 'e' :: 'p' :: 's' :: '"' :: ':' :: '[' :: ']' :: ',' ::
        '"' :: 'p' :: 'r' :: 'B' :: 'o' :: 'd' :: 'y' :: '"' :: ':' :: '"' :: b.data) := by
    intro hm
    exact (hall '`' (by rw [hd]; exact hm)).2.1 rfl
  have hnr : '}' ∉ '{' :: '"' :: 'p' :: 'r' :: 'T' :: 'i' :: 't' :: 'l' :: 'e' :: '"' :: ':' :: '"' ::
      (a.data ++ '"' :: ',' ::
        '"' :: 's' :: 't' :: 'e' :: 'p' :: 's' :: '"' :: ':' :: '[' :: ']' :: ',' ::
        '"' :: 'p' :: 'r' :: 'B' :: 'o' :: 'd' :: 'y' :: '"' :: ':' :: '"' :: b.data) := by
    intro hm
    exact (hall '}' (by rw [hd]; exact hm)).2.2 rfl
  have hmk : ("\x7b\"prTitle\":\"" ++ a ++ "\",\"steps\":[],\"prBody\":\"" ++ b : String) =
      ⟨'{' :: '"' :: 'p' :: 'r' :: 'T' :: 'i' :: 't' :: 'l' :: 'e' :: '"' :: ':' :: '"' ::
        (a.data ++ '"' :: ',' ::
          '"' :: 's' :: 't' :: 'e' :: 'p' :: 's' :: '"' :: ':' :: '[' :: ']' :: ',' ::
          '"' :: 'p' :: 'r' :: 'B' :: 'o' :: 'd' :: 'y' :: '"' :: ':' :: '"' :: b.data)⟩ :=
    congrArg String.mk hd
  rw [hmk]
  exact extractJson_id_of _ hws hnb hnr

theorem parsePlanJson_planDoc_trunc (a b : String)
    (ha : ∀ c ∈ a.data, plainChar c = true) (hb : ∀ c ∈ b.data, plainChar c = true) :
    parsePlanJson ("\x7b\"prTitle\":\"" ++ a ++ "\",\"steps\":[],\"prBody\":\"" ++ b) =
      some (.jobj [("prTitle", .jstr a), ("steps", .jarr []), ("prBody", .jstr b)]) := by
  have hnone := jsonParseText_planDoc_trunc a b ha hb
  have hall := planDoc_chars a b ha hb
  have htrim : jsTrim ("\x7b\"prTitle\":\"" ++ a ++ "\",\"steps\":[],\"prBody\":\"" ++ b) =
      "\x7b\"prTitle\":\"" ++ a ++ "\",\"steps\":[],\"prBody\":\"" ++ b :=
    jsTrim_id_of _ (fun c hc => (hall c hc).1)
  have hlen : ¬ ("\x7b\"prTitle\":\"" ++ a ++ "\",\"steps\":[],\"prBody\":\"" ++ b :
      String).data.length < 20 := by
    rw [planDocTrunc_data]
    simp [List.length_cons]
    omega
  have hfull := jsonParseText_planDoc_full a b ha hb
  have hshape : planShapeOk
      (.jobj [("prTitle", .jstr a), ("steps", .jarr []), ("prBody", .jstr b)]) = true := by
    simp [planShapeOk, jsTruthy, objGet]
  simp only [parsePlanJson, hnone, htrim]
  rw [if_neg hlen]
  simp only [repairSuffixes, tryRepairs, hfull, hshape]
  simp

set_option maxRecDepth 8000 in
/-- C5 counterexample: a complete wire-schema Plan document (all seven
fields, shown to parse) truncated mid-string inside its LAST field (the
string "test" inside `verify.commands`) is NOT recovered: extraction
followed by the repair pass returns null, because no repair suffix can close
a string nested inside two arrays and two objects. -/
theorem C5_counterexample :
    jsonParseText "\x7b\"prTitle\":\"t\",\"prBody\":\"b\",\"commitMessage\":\"c\",\"summaryBullets\":[],\"testPlanBullets\":[],\"steps\":[],\"verify\":\x7b\"commands\":[[\"npm\",\"test\"]]\x7d\x7d" =
      some (.jobj [("prTitle", .jstr "t"), ("prBody", .jstr "b"), ("commitMessage", .jstr "c"),
        ("summaryBullets", .jarr []), ("testPlanBullets", .jarr []), ("steps", .jarr []),
        ("verify", .jobj [("commands", .jarr [.jarr [.jstr "npm", .jstr "test"]])])]) ∧
    "\x7b\"prTitle\":\"t\",\"prBody\":\"b\",\"commitMessage\":\"c\",\"summaryBullets\":[],\"testPlanBullets\":[],\"steps\":[],\"verify\":\x7b\"commands\":[[\"npm\",\"te" ++ "st\"]]\x7d\x7d" =
      "\x7b\"prTitle\":\"t\",\"prBody\":\"b\",\"commitMessage\":\"c\",\"summaryBullets\":[],\"testPlanBullets\":[],\"steps\":[],\"verify\":\x7b\"commands\":[[\"npm\",\"test\"]]\x7d\x7d" ∧
    parsePlanJson (extractJsonFromText "\x7b\"prTitle\":\"t\",\"prBody\":\"b\",\"commitMessage\":\"c\",\"summaryBullets\":[],\"testPlanBullets\":[],\"steps\":[],\"verify\":\x7b\"commands\":[[\"npm\",\"te") = none :=
  ⟨rfl, rfl, rfl⟩

/-- C5 amended: the truncation repair works for documents whose truncation
point lies directly inside a top-level string field, not inside nested
structure.  For every document `{"prTitle":"a","steps":[],"prBody":"b…"}`
(contents free of quotes, escapes, braces, backticks and whitespace)
truncated mid-string inside the final field `prBody`, extraction is the
identity and the repair pass recovers a Plan whose fields preceding the
truncation point (`prTitle`, `steps`) equal those of the untruncated
document, with `prBody` holding the truncated prefix. -/
theorem C5_amended_flat_truncation_recovers (a b : String)
    (ha : ∀ c ∈ a.data, plainChar c = true) (hb : ∀ c ∈ b.data, plainChar c = true) :
    extractJsonFromText ("\x7b\"prTitle\":\"" ++ a ++ "\",\"steps\":[],\"prBody\":\"" ++ b) =
      "\x7b\"prTitle\":\"" ++ a ++ "\",\"steps\":[],\"prBody\":\"" ++ b ∧
    parsePlanJson (extractJsonFromText
        ("\x7b\"prTitle\":\"" ++ a ++ "\",\"steps\":[],\"prBody\":\"" ++ b)) =
      some (.jobj [("prTitle", .jstr a), ("steps", .jarr []), ("prBody", .jstr b)]) ∧
    jsonParseText ("\x7b\"prTitle\":\"" ++ a ++ "\",\"steps\":[],\"prBody\":\"" ++ b ++ "\"\x7d") =
      some (.jobj [("prTitle", .jstr a), ("steps", .jarr []), ("prBody", .jstr b)]) := by
  refine ⟨extractJson_planDoc_trunc a b ha hb, ?_, jsonParseText_planDoc_full a b ha hb⟩
  rw [extractJson_planDoc_trunc a b ha hb]
  exact parsePlanJson_planDoc_trunc a b ha hb

/-- Witness for the amended C5 on a concrete truncated document. -/
theorem C5_amended_flat_truncation_recovers_witness :
    ((∀ c ∈ ("Add_health_endpoint" : String).data, plainChar c = true) ∧
      (∀ c ∈ ("Adds_the_endpoint" : String).data, plainChar c = true)) ∧
    (extractJsonFromText ("\x7b\"prTitle\":\"" ++ "Add_health_endpoint" ++
        "\",\"steps\":[],\"prBody\":\"" ++ "Adds_the_endpoint") =
      "\x7b\"prTitle\":\"" ++ "Add_health_endpoint" ++ "\",\"steps\":[],\"prBody\":\"" ++
        "Adds_the_endpoint" ∧
      parsePlanJson (extractJsonFromText ("\x7b\"prTitle\":\"" ++ "Add_health_endpoint" ++
          "\",\"steps\":[],\"prBody\":\"" ++ "Adds_the_endpoint")) =
        some (.jobj [("prTitle", .jstr "Add_health_endpoint"), ("steps", .jarr []),
          ("prBody", .jstr "Adds_the_endpoint")]) ∧
      jsonParseText ("\x7b\"prTitle\":\"" ++ "Add_health_endpoint" ++
          "\",\"steps\":[],\"prBody\":\"" ++ "Adds_the_endpoint" ++ "\"\x7d") =
        some (.jobj [("prTitle", .jstr "Add_health_endpoint"), ("steps", .jarr []),
          ("prBody", .jstr "Adds_the_endpoint")])) :=
  ⟨⟨by decide, by decide⟩,
   C5_amended_flat_truncation_recovers "Add_health_endpoint" "Adds_the_endpoint"
     (by decide) (by decide)⟩

end OpenClaw
